import Mathlib

/-
Verification development for the ROM filename classification and
duplicate-resolution engine of `rom_cleanup.py` (class `ROMAnalyzer`).

The Python code classifies filenames with concrete regular expressions.  The
regexes used by the functions under study employ only a small regex subset:
case-insensitive literals, optional literals (`A?`), character classes
`\d`, `\s`, `.` (any char except newline) with `?`/`*`/`+`, word boundaries
`\b`, lazy/greedy `.*`, and the two lookahead forms `(?!.*word)` and
`(?!word)`.  We embed that subset as the inductive `PItem` and give it a
structural backtracking matcher `mtG` that mirrors Python `re` semantics
(leftmost position, greedy-with-backtracking within a position,
`re.IGNORECASE` throughout, ASCII case folding).

Strings are modelled as `List Char`; every definition is structural so that
concrete inputs evaluate by `decide`/`rfl`.
-/

/-- Python `\s` for ASCII input: space, tab, newline, carriage return,
vertical tab, form feed. -/
def isPySpace (c : Char) : Bool :=
  c = ' ' || c = '\t' || c = '\n' || c = '\r' || c = '\x0b' || c = '\x0c'

/-- Python `\w` for ASCII input: letters, digits, underscore. -/
def isWordChar (c : Char) : Bool :=
  c.isAlphanum || c = '_'

/-- Word-character test on an optional char (`none` = outside the string). -/
def isW : Option Char → Bool
  | some c => isWordChar c
  | none => false

/-- Character classes appearing in the source regexes. -/
inductive CK where
  | digit
  | space
  | anyNN
deriving DecidableEq, Repr

/-- Membership in a character class; `anyNN` is `.`, anything but newline. -/
def ckMatch : CK → Char → Bool
  | .digit, c => c.isDigit
  | .space, c => isPySpace c
  | .anyNN, c => c ≠ '\n'

/-- One element of a compiled pattern.  Literals are stored lower-case and
compared case-insensitively (`re.IGNORECASE`). -/
inductive PItem where
  /-- a literal string -/
  | lit : List Char → PItem
  /-- an optional literal (regex `xyz?` on the last char, or optional group) -/
  | opt : List Char → PItem
  /-- one optional class char, e.g. `.?` -/
  | optC : CK → PItem
  /-- exactly one class char -/
  | one : CK → PItem
  /-- zero or more class chars, e.g. `\s*`, `.*` -/
  | star : CK → PItem
  /-- one or more class chars, e.g. `\d+`, `\s+` -/
  | plus : CK → PItem
  /-- word boundary `\b` (zero-width) -/
  | wb : PItem
  /-- negative lookahead `(?!.*w)`: `w` must not occur from here on
  (with no newline before the occurrence) -/
  | negSub : List Char → PItem
  /-- negative lookahead `(?!w)`: the next chars must not literally be `w` -/
  | negLit : List Char → PItem
deriving DecidableEq, Repr

/-- Does lower-case word `w` occur somewhere in `cs` (case-insensitively),
with only non-newline characters before the occurrence?  This is exactly
when regex `.*w` matches a prefix of `cs`. -/
def occNoNl (w : List Char) : List Char → Bool
  | [] => w.isEmpty
  | c :: cs => (matchLit w (c :: cs)).isSome || (c ≠ '\n' && occNoNl w cs)
where
  /-- case-insensitive literal match at the head; returns chars consumed -/
  matchLit : List Char → List Char → Option Nat
    | [], _ => some 0
    | _ :: _, [] => none
    | a :: w, c :: cs => if c.toLower = a then (matchLit w cs).map (· + 1) else none

/-- Case-insensitive literal match of lower-case `w` at the head of `cs`,
threading the previous character for later word-boundary checks and
continuing with `k`; result counts total consumed characters. -/
def litStep (w : List Char) (k : Option Char → List Char → Option Nat) :
    Option Char → List Char → Option Nat
  | prev, cs =>
    match w, cs with
    | [], _ => k prev cs
    | _ :: _, [] => none
    | a :: w, c :: cs =>
      if c.toLower = a then (litStep w k (some c) cs).map (· + 1) else none

/-- Greedy-with-backtracking loop for `star k'` followed by continuation `k`:
first try to consume one more class char, on failure stop here. -/
def starStep (k' : CK) (k : Option Char → List Char → Option Nat) :
    Option Char → List Char → Option Nat
  | prev, [] => k prev []
  | prev, c :: cs =>
    if ckMatch k' c then
      match starStep k' k (some c) cs with
      | some n => some (n + 1)
      | none => k prev (c :: cs)
    else k prev (c :: cs)

/-- Match a compiled pattern at the current position (Python `re` anchored at
this position), given the previous character (for `\b`), returning the
number of characters consumed on success.  Greedy preference, full
backtracking — mirrors Python `re` behaviour on this subset. -/
def mtG : List PItem → Option Char → List Char → Option Nat
  | [], _, _ => some 0
  | .lit w :: ps, prev, cs => litStep w (mtG ps) prev cs
  | .opt w :: ps, prev, cs =>
    match litStep w (mtG ps) prev cs with
    | some n => some n
    | none => mtG ps prev cs
  | .optC k :: ps, prev, cs =>
    match cs with
    | c :: cs2 =>
      if ckMatch k c then
        match mtG ps (some c) cs2 with
        | some n => some (n + 1)
        | none => mtG ps prev cs
      else mtG ps prev cs
    | [] => mtG ps prev cs
  | .one k :: ps, prev, cs =>
    match cs with
    | c :: cs2 => if ckMatch k c then (mtG ps (some c) cs2).map (· + 1) else none
    | [] => none
  | .star k :: ps, prev, cs => starStep k (mtG ps) prev cs
  | .plus k :: ps, prev, cs =>
    match cs with
    | c :: cs2 =>
      if ckMatch k c then (starStep k (mtG ps) (some c) cs2).map (· + 1) else none
    | [] => none
  | .wb :: ps, prev, cs =>
    if isW prev != isW cs.head? then mtG ps prev cs else none
  | .negSub w :: ps, prev, cs =>
    if occNoNl w cs then none else mtG ps prev cs
  | .negLit w :: ps, prev, cs =>
    if (occNoNl.matchLit w cs).isSome then none else mtG ps prev cs

/-- Scan all start positions (Python `re.search`): does the pattern match
anywhere, given the char before the current position? -/
def searchFrom (p : List PItem) : Option Char → List Char → Bool
  | prev, [] => (mtG p prev []).isSome
  | prev, c :: cs => (mtG p prev (c :: cs)).isSome || searchFrom p (some c) cs

/-- Python `re.search(pattern, s, re.IGNORECASE) is not None`. -/
def psearch (p : List PItem) (s : List Char) : Bool :=
  searchFrom p none s

/-- Python `re.sub`: replace every (leftmost, non-overlapping) match of the
at-position matcher `m` with `rep`.  `fuel` bounds the recursion and is
instantiated with the string length; all matchers used consume at least one
character, so a zero-length match is treated as no match. -/
def subFuel (m : List Char → Option Nat) (rep : List Char) :
    Nat → List Char → List Char
  | _, [] => []
  | 0, cs => cs
  | fuel + 1, c :: cs =>
    match m (c :: cs) with
    | some (n + 1) => rep ++ subFuel m rep fuel (List.drop n cs)
    | _ => c :: subFuel m rep fuel cs

/-- `re.sub(pattern, rep, s)` for our matchers. -/
def subAll (m : List Char → Option Nat) (rep : List Char) (cs : List Char) :
    List Char :=
  subFuel m rep cs.length cs

/-- ASCII lower-casing of a char list (Python `str.lower` on ASCII input). -/
def toLowerL (cs : List Char) : List Char :=
  cs.map Char.toLower

/-- Python `str.strip()` on ASCII input: drop whitespace from both ends. -/
def pyStrip (cs : List Char) : List Char :=
  ((cs.dropWhile isPySpace).reverse.dropWhile isPySpace).reverse

/-- Index of the last `.` in the name, if any (Python `str.rfind('.')`). -/
def rfindDot (cs : List Char) : Option Nat :=
  match cs.reverse.findIdx? (· = '.') with
  | some j => some (cs.length - 1 - j)
  | none => none

/-- `pathlib.PurePath.suffix` of a bare name: the part from the last dot,
provided the dot is neither the first nor the last character. -/
def pySuffix (cs : List Char) : List Char :=
  match rfindDot cs with
  | some i => if 0 < i ∧ i < cs.length - 1 then cs.drop i else []
  | none => []

/-- `pathlib.PurePath.stem` of a bare name: the name minus its suffix. -/
def pyStem (cs : List Char) : List Char :=
  cs.take (cs.length - (pySuffix cs).length)

/-- Content up to the next `)` or `]` (the lazy `.*?` of
`re.findall(r'[\(\[](.*?)[\)\]]', ...)`); fails on a newline or if no
closer exists.  Returns the content and the rest after the closer. -/
def takeUntilCloser : List Char → Option (List Char × List Char)
  | [] => none
  | c :: cs =>
    if c = ')' ∨ c = ']' then some ([], cs)
    else if c = '\n' then none
    else
      match takeUntilCloser cs with
      | some (content, rest) => some (c :: content, rest)
      | none => none

/-- Fuel-driven worker for `findGroups`; the fuel is instantiated with the
string length, which bounds the number of scanning steps (the rest after a
closer is a strict suffix). -/
def findGroupsF : Nat → List Char → List (List Char)
  | _, [] => []
  | 0, _ => []
  | fuel + 1, c :: cs =>
    if c = '(' ∨ c = '[' then
      match takeUntilCloser cs with
      | some (content, rest) => content :: findGroupsF fuel rest
      | none => findGroupsF fuel cs
    else findGroupsF fuel cs

/-- All bracketed/parenthesised group contents of the string, as found by
`re.findall(r'[\(\[](.*?)[\)\]]', filename)` (non-overlapping, leftmost). -/
def findGroups (cs : List Char) : List (List Char) :=
  findGroupsF cs.length cs

/-- Python `str.split(',')`: split at every comma. -/
def splitComma : List Char → List (List Char)
  | [] => [[]]
  | c :: cs =>
    if c = ',' then [] :: splitComma cs
    else
      match splitComma cs with
      | [] => [[c]]
      | p :: ps => (c :: p) :: ps

/-! ### Pattern tables (the `ROMAnalyzer.__init__` pattern library) -/

/-- Compiled literal pattern element, lower-cased (`re.IGNORECASE`). -/
def L (s : String) : PItem := .lit (toLowerL s.data)

/-- Compiled optional-literal element (regex `xyz?` / optional suffix). -/
def O (s : String) : PItem := .opt (toLowerL s.data)

/-- Word boundary `\b`. -/
def WB : PItem := .wb

/-- `\d*`. -/
def D0 : PItem := .star .digit

/-- `\d+`. -/
def D1 : PItem := .plus .digit

/-- `\s*`. -/
def S0 : PItem := .star .space

/-- `\s+`. -/
def S1 : PItem := .plus .space

/-- `.?`. -/
def AO : PItem := .optC .anyNN

/-- `.*` (also stands for the lazy `.*?`, which is Boolean-equivalent). -/
def ANY : PItem := .star .anyNN

/-- Negative lookahead `(?!.*s)`. -/
def NS (s : String) : PItem := .negSub (toLowerL s.data)

/-- Negative lookahead `(?!s)` on a literal. -/
def NL (s : String) : PItem := .negLit (toLowerL s.data)

/-- A plain `\bword\b` pattern. -/
def wrd (s : String) : List PItem := [WB, L s, WB]

/-- A region pattern together with the flag used by `get_base_filename`:
`delim = true` iff the source regex starts with `\(` and ends with `\)`
(or starts with `\[` and ends with `\]`), which is the condition
`pattern.startswith(r'\(') and pattern.endswith(r'\)')` (resp. brackets)
deciding whether the pattern participates in tag stripping. -/
structure RPat where
  items : List PItem
  delim : Bool
deriving DecidableEq, Repr

/-- A parenthesis/bracket-delimited region pattern (stripped by the
normalizer). -/
def Pd (ps : List PItem) : RPat := ⟨ps, true⟩

/-- A bare-word region pattern (detection only, never stripped). -/
def Wd (ps : List PItem) : RPat := ⟨ps, false⟩

/-- `ROMAnalyzer.region_patterns`: ordered table of region name to ordered
pattern list (Python dict preserves insertion order). -/
def region_patterns : List (String × List RPat) := [
  ("USA", [Pd [L "(us", O "a", L ")"], Pd [L "(us)"], Pd [L "(u)"], Pd [L "(na)"],
           Wd [WB, L "us", O "a", WB], Wd [WB, L "us", WB], Wd [WB, L "na", WB]]),
  ("Europe", [Pd [L "(europ", O "e", L ")"], Pd [L "(eu)"], Pd [L "(e)"], Pd [L "(pal)"],
              Wd [WB, L "europ", O "e", WB], Wd [WB, L "eu", WB], Wd [WB, L "pal", WB]]),
  ("Japan", [Pd [L "(japa", O "n", L ")"], Pd [L "(jp)"], Pd [L "(j)"], Pd [L "(ntsc-j)"],
             Wd [WB, L "japa", O "n", WB], Wd [WB, L "jp", WB], Wd [WB, L "j", WB]]),
  ("World", [Pd [L "(world)"], Pd [L "(w)"], Wd [WB, L "world", WB], Wd [WB, L "w", WB]]),
  ("Asia", [Pd [L "(asia)"], Pd [L "(as)"], Wd [WB, L "asia", WB], Wd [WB, L "as", WB]]),
  ("Australia", [Pd [L "(australia)"], Pd [L "(au)"], Pd [L "(aus)"],
                 Wd [WB, L "australia", WB], Wd [WB, L "au", WB], Wd [WB, L "aus", WB]]),
  ("Brazil", [Pd [L "(brazil)"], Pd [L "(br)"], Wd [WB, L "brazil", WB], Wd [WB, L "br", WB]]),
  ("Canada", [Pd [L "(canada)"], Pd [L "(ca)"], Wd [WB, L "canada", WB], Wd [WB, L "ca", WB]]),
  ("China", [Pd [L "(china)"], Pd [L "(cn)"], Wd [WB, L "china", WB], Wd [WB, L "cn", WB]]),
  ("France", [Pd [L "(france)"], Pd [L "(fr)"], Wd [WB, L "france", WB], Wd [WB, L "fr", WB]]),
  ("Germany", [Pd [L "(germany)"], Pd [L "(de)"], Wd [WB, L "germany", WB], Wd [WB, L "de", WB]]),
  ("Italy", [Pd [L "(italy)"], Pd [L "(it)"], Wd [WB, L "italy", WB], Wd [WB, L "it", WB]]),
  ("Korea", [Pd [L "(korea)"], Pd [L "(kr)"], Wd [WB, L "korea", WB], Wd [WB, L "kr", WB]]),
  ("Netherlands", [Pd [L "(netherlands)"], Pd [L "(nl)"], Wd [WB, L "netherlands", WB], Wd [WB, L "nl", WB]]),
  ("Spain", [Pd [L "(spain)"], Pd [L "(es)"], Wd [WB, L "spain", WB], Wd [WB, L "es", WB]]),
  ("Sweden", [Pd [L "(sweden)"], Pd [L "(se)"], Wd [WB, L "sweden", WB], Wd [WB, L "se", WB]]),
  ("Taiwan", [Pd [L "(taiwan)"], Pd [L "(tw)"], Wd [WB, L "taiwan", WB], Wd [WB, L "tw", WB]]),
  ("UK", [Pd [L "(uk)"], Pd [L "(united kingdom)"], Wd [WB, L "uk", WB], Wd [WB, L "united kingdom", WB]])]

/-- `ROMAnalyzer.special_patterns`: special-version tags. -/
def special_patterns : List (String × List (List PItem)) := [
  ("Proto", [[L "(proto", S0, D0, L ")"], [L "(prototype", S0, D0, L ")"],
             [L "[proto", S0, D0, L "]"], [L "[prototype", S0, D0, L "]"]]),
  ("Beta", [[L "(beta", S0, D0, L ")"], [L "[beta", S0, D0, L "]"], [L "[b", D0, L "]"]]),
  ("Alpha", [[L "(alpha", S0, D0, L ")"], [L "[alpha", S0, D0, L "]"], [L "[a", D0, L "]"]]),
  ("Demo", [[L "(demo", S0, D0, L ")"], [L "[demo", S0, D0, L "]"], [L "[d", D0, L "]"]]),
  ("Sample", [[L "(sample", S0, D0, L ")"], [L "[sample", S0, D0, L "]"]]),
  ("Homebrew", [[L "(homebrew)"], [L "[homebrew]"], [L "[h]"]]),
  ("Hack", [[L "(hack)"], [L "[hack]"], [L "[h", D1, L "]"]]),
  ("Translation", [[L "(translation)"], [L "[t+"], [L "[t-"]]),
  ("Trainer", [[L "[t", D0, L "]"], [L "(trainer)"]]),
  ("Overdump", [[L "[o", D0, L "]"], [L "(overdump)"]]),
  ("Bad Dump", [[L "[b", D0, L "]"], [L "(bad)"], [L "[!p]"]]),
  ("Good Dump", [[L "[!]"], [L "(good)"]]),
  ("Cracked", [[L "[cr]"], [L "(cracked)"]]),
  ("Fixed", [[L "[f", D0, L "]"], [L "(fixed)"]]),
  ("Pirate", [[L "[p", D0, L "]"], [L "(pirate)"]])]

/-- `ROMAnalyzer.translation_patterns`. -/
def translation_patterns : List (List PItem) := [
  [L "[t+", ANY, L "]"],
  [L "[t-", ANY, L "]"],
  [L "(translation)"],
  [L "(translated)"],
  [L "(english)"],
  [L "[english]"],
  [L "(eng)"],
  [L "[eng]"],
  [L "[t&", ANY, L "]"],
  [L "english translation"],
  [L "fan translation"],
  wrd "translated",
  wrd "english"]

/-- `ROMAnalyzer.language_code_patterns`; the single alternation regex
`\b(En|Fr|De|Es|It|Nl|Pt|Sv|No|Da|Fi|Pl|Ru|Ja|Ko|Zh)\b` is expanded into
one `\bxx\b` pattern per alternative (Boolean-equivalent for `re.search`). -/
def language_code_patterns : List (List PItem) := [
  wrd "en", wrd "fr", wrd "de", wrd "es", wrd "it", wrd "nl", wrd "pt", wrd "sv",
  wrd "no", wrd "da", wrd "fi", wrd "pl", wrd "ru", wrd "ja", wrd "ko", wrd "zh",
  wrd "eng", wrd "fre", wrd "ger", wrd "spa", wrd "ita", wrd "dut",
  wrd "english", wrd "french", wrd "german", wrd "spanish", wrd "italian", wrd "dutch",
  wrd "portuguese", wrd "swedish", wrd "norwegian", wrd "danish", wrd "finnish",
  wrd "polish", wrd "russian", wrd "japanese", wrd "korean", wrd "chinese"]

/-- `ROMAnalyzer.casino_game_patterns`. -/
def casino_game_patterns : List (List PItem) := [
  wrd "casino", wrd "vegas", wrd "lasvegas", wrd "las vegas",
  wrd "gambling", wrd "jackpot",
  wrd "poker", wrd "texas hold", wrd "holdem", wrd "blackjack", wrd "black jack",
  wrd "baccarat", wrd "solitaire", wrd "klondike", wrd "freecell",
  wrd "pai gow", wrd "paigow", wrd "gin rummy", wrd "rummy",
  wrd "roulette", wrd "craps", wrd "keno", wrd "bingo",
  [WB, L "slot", O "s", WB], wrd "slot machine", wrd "fruit machine",
  wrd "one arm bandit", wrd "cherry master",
  wrd "vegas stakes", wrd "casino kid", wrd "world class poker",
  wrd "caesars palace", wrd "trump castle",
  wrd "las vegas dream", wrd "atlantic city action", wrd "monte carlo casino",
  wrd "pachinko", wrd "mahjong", wrd "mah jong", wrd "mah-jong",
  wrd "hanafuda",
  wrd "chuck a luck", [WB, L "wheel of fortune", WB, NL " - "],
  wrd "monte carlo casino", wrd "atlantic city casino", wrd "reno casino",
  wrd "riverboat casino",
  wrd "casino chip", wrd "poker chip", wrd "gaming chip"]

/-- `ROMAnalyzer.casino_exclusion_patterns`. -/
def casino_exclusion_patterns : List (List PItem) := [
  [WB, L "spider", AO, L "man", WB], wrd "venom", wrd "carnage", wrd "lethal",
  wrd "superman", wrd "batman", [WB, L "x", AO, L "men", WB], wrd "avengers",
  wrd "marvel", wrd "dc comics", wrd "wolverine", wrd "hulk",
  wrd "captain america", wrd "iron man", wrd "justice league",
  wrd "star trek", wrd "starfleet", wrd "bridge simulator",
  wrd "star wars", wrd "enterprise", wrd "starship",
  wrd "alien", [WB, L "space", WB, ANY, WB, L "invaders", WB], wrd "galaga",
  wrd "skateboard", wrd "skate", wrd "snowboard",
  wrd "surf", [WB, L "race", WB, NS "casino"], [WB, L "track", WB, NS "casino"],
  wrd "football", wrd "baseball", wrd "basketball", wrd "hockey",
  wrd "pokemon", wrd "digimon", wrd "yu-gi-oh", wrd "magic the gathering",
  [WB, L "duel", WB, ANY, WB, L "masters", WB],
  [WB, L "card", WB, ANY, WB, L "battle", WB], wrd "tcg", wrd "ccg",
  [WB, L "solitaire", WB, NS "casino"], [WB, L "pyramid", WB, NS "casino"],
  wrd "mario", wrd "zelda", wrd "kirby", wrd "yoshi",
  wrd "sonic", wrd "megaman", wrd "mega man", wrd "castlevania",
  wrd "metroid", wrd "final fantasy", wrd "dragon quest",
  [WB, L "bridge", WB, NS "casino"],
  [WB, L "boat", WB, NS "casino"],
  [WB, L "chip", WB, NS "casino"],
  [WB, L "slot", WB, NS "machine"],
  wrd "monopoly", [WB, L "risk", WB, NS "casino"], wrd "scrabble",
  wrd "chess", wrd "checkers", [WB, L "go", WB, NS "casino"],
  [WB, L "wheel of fortune", WB, ANY, WB, L "game show", WB],
  wrd "jeopardy", wrd "family feud", wrd "price is right",
  wrd "game show", [WB, L "trivia", WB, NS "casino"],
  wrd "street fighter", wrd "mortal kombat", wrd "tekken",
  wrd "king of fighters", wrd "samurai shodown"]

/-- `ROMAnalyzer.adult_game_patterns`. -/
def adult_game_patterns : List (List PItem) := [
  wrd "hentai", wrd "porn", wrd "porno", wrd "xxx",
  wrd "adult", wrd "erotic", wrd "sexy", wrd "nude", wrd "naked",
  wrd "bishoujo", wrd "ecchi", wrd "bishounen",
  [WB, L "eroge", O "s", WB], wrd "galge", wrd "otome", wrd "dating sim",
  [WB, L "visual novel", WB, ANY, WB, L "adult", WB], wrd "renai",
  [WB, L "super", S1, L "maruo", WB], [WB, L "bishoujo", S1, L "shashinkan", WB],
  [WB, L "studio", S1, L "cut", WB],
  wrd "bodycon quest", wrd "abakareshi musume",
  wrd "honey peach", wrd "night life", [WB, L "midnight", WB, ANY, WB, L "love", WB],
  wrd "playboy", wrd "penthouse", wrd "hustler",
  wrd "striptease", [WB, L "strip", WB, ANY, WB, L "poker", WB], wrd "lingerie",
  wrd "18+", [WB, L "adult", O "s", L " only", WB],
  [WB, L "mature", WB, ANY, WB, L "content", WB],
  [WB, L "unlicensed", WB, ANY, WB, L "adult", WB],
  [WB, L "homebrew", WB, ANY, WB, L "adult", WB],
  [WB, L "girl", O "s", WB, ANY, WB, L "unlocked", WB], wrd "seduction", wrd "temptation",
  [WB, L "forbidden", WB, ANY, WB, L "love", WB],
  [WB, L "passion", WB, ANY, WB, L "night", WB]]

/-- `ROMAnalyzer.adult_exclusion_patterns`. -/
def adult_exclusion_patterns : List (List PItem) := [
  wrd "mario", wrd "zelda", wrd "pokemon", wrd "sonic",
  wrd "kirby", wrd "yoshi", wrd "donkey kong",
  wrd "megaman", wrd "mega man", wrd "final fantasy",
  wrd "dragon quest", wrd "chrono", wrd "secret of",
  [WB, L "night", ANY, WB, L "trap", WB],
  [WB, L "midnight", ANY, WB, L "resistance", WB],
  [WB, L "adult", ANY, WB, L "swim", WB],
  [WB, L "mature", ANY, WB, L "tree", WB],
  [WB, L "sexy", ANY, WB, L "parodius", WB],
  [WB, L "nude", ANY, WB, L "race", WB],
  [WB, L "nude", ANY, WB, L "car", WB]]

/-- `ROMAnalyzer.save_state_extensions`. -/
def save_state_extensions : List String := [
  ".srm", ".sav", ".rtc", ".fla",
  ".st0", ".st1", ".st2", ".st3", ".st4", ".st5", ".st6", ".st7", ".st8", ".st9",
  ".fc0", ".fc1", ".fc2", ".fc3", ".fc4", ".fc5", ".fc6", ".fc7", ".fc8", ".fc9",
  ".zs0", ".zs1", ".zs2", ".zs3", ".zs4", ".zs5", ".zs6", ".zs7", ".zs8", ".zs9",
  ".sm0", ".sm1", ".sm2", ".sm3", ".sm4", ".sm5", ".sm6", ".sm7", ".sm8", ".sm9",
  ".vb0", ".vb1", ".vb2", ".vb3", ".vb4", ".vb5", ".vb6", ".vb7", ".vb8", ".vb9",
  ".ds0", ".ds1", ".ds2", ".ds3", ".ds4", ".ds5", ".ds6", ".ds7", ".ds8", ".ds9"]

/-- `ROMAnalyzer.format_preference`, in source order.  The Python dict
literal contains a few duplicate keys (later entries overwrite earlier
ones), so lookup takes the LAST matching entry, mirroring dict build. -/
def format_preference : List (String × Nat) := [
  (".zip", 1), (".7z", 1), (".rar", 1), (".rom", 5),
  (".bin", 5), (".img", 5), (".raw", 5), (".nes", 10),
  (".fds", 9), (".unif", 8), (".unf", 8), (".nsf", 6),
  (".nsfe", 6), (".sfc", 10), (".smc", 9), (".snes", 10),
  (".bs", 8), (".spc", 6), (".gb", 10), (".gbc", 10),
  (".cgb", 10), (".sgb", 9), (".dmg", 9), (".gbx", 8),
  (".gba", 10), (".agb", 9), (".mb", 8), (".srl", 9),
  (".n64", 10), (".z64", 10), (".v64", 9), (".u64", 8),
  (".rom64", 7), (".n64rom", 7), (".usa", 6), (".pal", 6),
  (".jap", 6), (".nds", 10), (".dsi", 9), (".ids", 8),
  (".srl", 9), (".nds.gba", 7), (".3ds", 10), (".cia", 9),
  (".3dsx", 8), (".cci", 7), (".cxi", 6), (".app", 5),
  (".tmd", 4), (".tik", 4), (".gcm", 10), (".tgc", 9),
  (".iso", 9), (".ciso", 8), (".wia", 8), (".gcz", 7),
  (".wbfs", 6), (".rvz", 6), (".nkit", 5), (".xci", 10),
  (".nsp", 9), (".nro", 8), (".nca", 7), (".nacp", 6),
  (".nso", 6), (".npdm", 5), (".md", 10), (".smd", 9),
  (".gen", 10), (".sg", 8), (".sgd", 8), (".32x", 10),
  (".32c", 9), (".sms", 10), (".gg", 10), (".mvs", 9),
  (".sc", 8), (".sf7000", 7), (".chd", 9), (".cue", 8),
  (".gdi", 8), (".mds", 7), (".ccd", 7), (".cdi", 7),
  (".mdf", 6), (".nrg", 5), (".toc", 6), (".m3u", 5),
  (".dat", 4), (".lst", 4), (".pbp", 9), (".cso", 7),
  (".dax", 6), (".prx", 8), (".psv", 8), (".psx", 9),
  (".ecm", 6), (".ape", 5), (".sub", 4), (".psf", 5),
  (".minipsf", 5), (".psf2", 5), (".minipsf2", 5), (".ps2", 9),
  (".elf", 8), (".irx", 7), (".cnf", 6), (".pkg", 8),
  (".rap", 7), (".psn", 6), (".p3t", 5), (".vpk", 8),
  (".suprx", 7), (".skprx", 6), (".pce", 10), (".sgx", 9),
  (".hes", 6), (".tg16", 9), (".huc", 8), (".ngp", 10),
  (".ngc", 9), (".ngpc", 10), (".pocket", 8), (".ws", 10),
  (".wsc", 10), (".pc2", 8), (".a26", 10), (".a78", 10),
  (".lnx", 10), (".lyx", 9), (".o", 7), (".jag", 10),
  (".j64", 9), (".abs", 8), (".cof", 7), (".int", 10),
  (".itv", 9), (".col", 10), (".cv", 9), (".vec", 10),
  (".gam", 8), (".o2", 10), (".xbe", 9), (".xex", 8),
  (".xcp", 7), (".xbx", 6), (".xiso", 8), (".000", 7),
  (".dvd", 6), (".god", 7), (".xbla", 6), (".xbx1", 5),
  (".min", 10), (".pokemini", 10), (".vb", 10), (".vboy", 10),
  (".sx1", 10), (".sx2", 10), (".d64", 10), (".t64", 9),
  (".prg", 8), (".d81", 9), (".d82", 9), (".g64", 8),
  (".p64", 8), (".x64", 8), (".p00", 7), (".s64", 7),
  (".d71", 8), (".d80", 8), (".cas", 8), (".wav", 6),
  (".cdt", 7), (".tap", 9), (".tzx", 8), (".z80", 9),
  (".sna", 9), (".scl", 8), (".trd", 8), (".adf", 10),
  (".dms", 8), (".ipf", 9), (".hdf", 8), (".lha", 7),
  (".lzx", 6), (".st", 10), (".msa", 8), (".dim", 7),
  (".stx", 9), (".cpc", 9), (".msx", 9), (".oric", 8),
  (".sam", 8), (".mgt", 8), (".ti99", 8), (".tifiles", 7),
  (".apple2", 9), (".do", 8), (".po", 8), (".nib", 7),
  (".woz", 10), (".m5", 8), (".pzx", 7), (".coleco", 8),
  (".adam", 8), (".dragon", 8), (".vdk", 7), (".dmk", 7),
  (".coco", 8), (".neo", 10), (".aes", 10), (".mvs", 10),
  (".ngm", 9), (".mame", 8), (".dol", 9), (".wad", 8),
  (".forwarder", 7), (".xex", 9), (".atr", 8), (".car", 8),
  (".dsk", 9), (".ima", 8), (".vfd", 7), (".hfe", 6),
  (".mfm", 5), (".td0", 6), (".scummvm", 8), (".gog", 7),
  (".dos", 6), (".flash", 5), (".swf", 4), (".love", 7),
  (".tic", 6), (".bios", 8), (".firmware", 8), (".gz", 2),
  (".bz2", 2), (".swc", 8), (".fig", 7), (".mgd", 6),
  (".ufo", 6), (".srm", 3), (".sav", 3), (".rtc", 3),
  (".fla", 3), (".st0", 2), (".st1", 2), (".st2", 2),
  (".st3", 2), (".st4", 2), (".st5", 2), (".st6", 2),
  (".st7", 2), (".st8", 2), (".st9", 2), (".fc0", 2),
  (".fc1", 2), (".fc2", 2), (".fc3", 2), (".fc4", 2),
  (".fc5", 2), (".fc6", 2), (".fc7", 2), (".fc8", 2),
  (".fc9", 2), (".zs0", 2), (".zs1", 2), (".zs2", 2),
  (".zs3", 2), (".zs4", 2), (".zs5", 2), (".zs6", 2),
  (".zs7", 2), (".zs8", 2), (".zs9", 2), (".sm0", 2),
  (".sm1", 2), (".sm2", 2), (".sm3", 2), (".sm4", 2),
  (".sm5", 2), (".sm6", 2), (".sm7", 2), (".sm8", 2),
  (".sm9", 2), (".vb0", 2), (".vb1", 2), (".vb2", 2),
  (".vb3", 2), (".vb4", 2), (".vb5", 2), (".vb6", 2),
  (".vb7", 2), (".vb8", 2), (".vb9", 2), (".ds0", 2),
  (".ds1", 2), (".ds2", 2), (".ds3", 2), (".ds4", 2),
  (".ds5", 2), (".ds6", 2), (".ds7", 2), (".ds8", 2),
  (".ds9", 2)]

/-! ### Classifier -/

/-- `ROMAnalyzer.has_translation`: some translation pattern matches. -/
def has_translation (filename : List Char) : Bool :=
  translation_patterns.any (fun p => psearch p filename)

/-- `ROMAnalyzer.is_language_code`: some language-code pattern matches. -/
def is_language_code (text : List Char) : Bool :=
  language_code_patterns.any (fun p => psearch p text)

/-- `ROMAnalyzer.is_casino_game`: exclusions first (early `return False`),
then positives. -/
def is_casino_game (filename : List Char) : Bool :=
  let name := toLowerL (pyStem filename)
  if casino_exclusion_patterns.any (fun p => psearch p name) then false
  else casino_game_patterns.any (fun p => psearch p name)

/-- `ROMAnalyzer.is_adult_game`: exclusions first, then positives. -/
def is_adult_game (filename : List Char) : Bool :=
  let name := toLowerL (pyStem filename)
  if adult_exclusion_patterns.any (fun p => psearch p name) then false
  else adult_game_patterns.any (fun p => psearch p name)

/-- `ROMAnalyzer.is_save_state`: extension membership. -/
def is_save_state (filename : List Char) : Bool :=
  save_state_extensions.any (fun e => e.data = toLowerL (pySuffix filename))

/-- `ROMAnalyzer.get_format_preference`: dict lookup with default 0; the
fold takes the last matching entry (dict duplicate keys overwrite). -/
def get_format_preference (filename : List Char) : Nat :=
  let ext := toLowerL (pySuffix filename)
  (format_preference.foldl
    (fun acc kv => if kv.1.data = ext then some kv.2 else acc) none).getD 0

/-- Append a region name if it is not already present
(`if region not in regions: regions.append(region)`). -/
def addRegion (regions : List String) (r : String) : List String :=
  if r ∈ regions then regions else regions ++ [r]

/-- One comma part of a bracketed group in `detect_regions`: skip language
codes, otherwise collect (in table order, deduplicated) every region one of
whose patterns matches the test string `'(' + part + ')'`. -/
def regionsOfPart (acc : List String) (part : List Char) : List String :=
  let part := pyStrip part
  if is_language_code part then acc
  else
    region_patterns.foldl
      (fun acc rp =>
        if rp.2.any (fun p => psearch p.items ('(' :: part ++ [')'])) then
          addRegion acc rp.1
        else acc)
      acc

/-- Stage (a) of `ROMAnalyzer.detect_regions`: comma-separated regions
inside parenthesised/bracketed groups. -/
def regionsFromParts (filename : List Char) : List String :=
  (findGroups filename).foldl
    (fun acc grp => (splitComma grp).foldl regionsOfPart acc) []

/-- Stage (b) of `ROMAnalyzer.detect_regions`: whole-filename scan against
every region pattern list, in table order (used only when stage (a) found
nothing). -/
def regionsScan (filename : List Char) : List String :=
  region_patterns.filterMap
    (fun rp =>
      if rp.2.any (fun p => psearch p.items filename) then some rp.1 else none)

/-- The region list before the translation substitution and the USA
default: stage (a), falling back to stage (b) when empty.  (The
unknown-region accumulator `self.unknown_regions` that the source fills
here is a reporting side channel and never affects the returned list, so
it is not modelled.) -/
def regionsPre (filename : List Char) : List String :=
  let a := regionsFromParts filename
  if a.isEmpty then regionsScan filename else a

/-- The Japan-plus-translation substitution of `detect_regions`: with a
translation marker, Japan is removed and USA added; with a translation
marker but no detected region, the result is `["USA"]`. -/
def regionsTrans (filename : List Char) (regions : List String) : List String :=
  if has_translation filename then
    if "Japan" ∈ regions then
      let regions := regions.filter (fun r => r ≠ "Japan")
      if "USA" ∈ regions then regions else regions ++ ["USA"]
    else if regions = [] ∨ regions = ["Unknown"] then ["USA"]
    else regions
  else regions

/-- `ROMAnalyzer.detect_regions`. -/
def detect_regions (filename : List Char) : List String :=
  let regions := regionsTrans filename (regionsPre filename)
  if regions = [] ∨ regions = ["Unknown"] then ["USA"] else regions

/-- `ROMAnalyzer.get_primary_region`; `priority` is the configured
`self.region_priority` (default `['USA', 'World', 'Europe', 'Japan']`). -/
def get_primary_region (priority : List String) (filename : List Char) :
    String :=
  match detect_regions filename with
  | [] => "USA"
  | r :: rs =>
    match priority.find? (fun p => p ∈ r :: rs) with
    | some p => p
    | none => r

/-- `ROMAnalyzer.detect_special_versions` (the `self.unknown_specials`
reporting side channel never affects the returned list and is not
modelled). -/
def detect_special_versions (filename : List Char) : List String :=
  special_patterns.filterMap
    (fun sp =>
      if sp.2.any (fun p => psearch p filename) then some sp.1 else none)

/-! ### Version detection (`ROMAnalyzer.version_patterns` / `detect_version`)

The twelve version regexes carry capture groups, so they are embedded as
hand-written at-position matchers returning (consumed length, groups); the
same matchers drive both `detect_version` (via leftmost search) and the
version-stripping pass of `get_base_filename` (via their lengths).  In each
matcher the greedy/backtracking behaviour of the regex is deterministic
because the classes involved (`\d`, `\s`, literal `.`/`)`/`]`) are disjoint
from what must follow; comments note the cases. -/

/-- Consume a maximal non-empty digit run: value, count, rest (`(\d+)`). -/
def digsGo (v n : Nat) : List Char → Nat × Nat × List Char
  | [] => (v, n, [])
  | c :: cs =>
    if c.isDigit then digsGo (v * 10 + (c.toNat - 48)) (n + 1) cs else (v, n, c :: cs)

/-- `(\d+)` at the current position. -/
def takeDigits : List Char → Option (Nat × Nat × List Char)
  | [] => none
  | c :: cs => if c.isDigit then some (digsGo (c.toNat - 48) 1 cs) else none

/-- `\(v?(\d+)\.(\d+)(?:\.(\d+))?\)` (or the bracket variant) at the current
position: returns (consumed, major, minor, patch?).  Backtracking notes:
if a `v` is present it must be taken (the `v` is not a digit); if the
optional patch group starts (a `.` follows the minor) it must complete
(the closer differs from `.`). -/
def stdAt (op cl : Char) (cs : List Char) : Option (Nat × Nat × Nat × Option Nat) :=
  match cs with
  | [] => none
  | c :: cs1 =>
    if c ≠ op then none
    else
      let vcs : Nat × List Char :=
        match cs1 with
        | d :: rest => if d.toLower = 'v' then (1, rest) else (0, cs1)
        | [] => (0, cs1)
      match takeDigits vcs.2 with
      | none => none
      | some (ma, n1, cs3) =>
        match cs3 with
        | '.' :: cs4 =>
          match takeDigits cs4 with
          | none => none
          | some (mi, n2, cs5) =>
            match cs5 with
            | '.' :: cs6 =>
              match takeDigits cs6 with
              | none => none
              | some (pa, n3, cs7) =>
                match cs7 with
                | c7 :: _ =>
                  if c7 = cl then
                    some (1 + vcs.1 + n1 + 1 + n2 + 1 + n3 + 1, ma, mi, some pa)
                  else none
                | [] => none
            | c5 :: _ =>
              if c5 = cl then some (1 + vcs.1 + n1 + 1 + n2 + 1, ma, mi, none)
              else none
            | [] => none
        | _ => none

/-- `\(ver\.?\s*(\d+)(?:\.(\d+))?(?:\.(\d+))?\)` /
`\(version\s*(\d+)(?:\.(\d+))?(?:\.(\d+))?\)` and bracket variants, at the
current position; `kw` is the keyword (`ver` / `version`), `optDot` whether
the regex has `\.?` after the keyword.  Optional groups are forced when
their leading `.` is present (closer is not a `.`). -/
def verAt (op cl : Char) (kw : List Char) (optDot : Bool) (cs : List Char) :
    Option (Nat × Nat × Option Nat × Option Nat) :=
  match cs with
  | [] => none
  | c :: cs1 =>
    if c ≠ op then none
    else
      match occNoNl.matchLit kw cs1 with
      | none => none
      | some nk =>
        let cs2 := cs1.drop nk
        let dcs : Nat × List Char :=
          if optDot then
            match cs2 with
            | '.' :: rest => (1, rest)
            | _ => (0, cs2)
          else (0, cs2)
        let scs := dcs.2.dropWhile (fun ch => isPySpace ch)
        let ns := dcs.2.length - scs.length
        match takeDigits scs with
        | none => none
        | some (ma, n1, cs3) =>
          match cs3 with
          | '.' :: cs4 =>
            match takeDigits cs4 with
            | none => none
            | some (mi, n2, cs5) =>
              match cs5 with
              | '.' :: cs6 =>
                match takeDigits cs6 with
                | none => none
                | some (pa, n3, cs7) =>
                  match cs7 with
                  | c7 :: _ =>
                    if c7 = cl then
                      some (1 + nk + dcs.1 + ns + n1 + 1 + n2 + 1 + n3 + 1,
                        ma, some mi, some pa)
                    else none
                  | [] => none
              | c5 :: _ =>
                if c5 = cl then
                  some (1 + nk + dcs.1 + ns + n1 + 1 + n2 + 1, ma, some mi, none)
                else none
              | [] => none
          | c3 :: _ =>
            if c3 = cl then some (1 + nk + dcs.1 + ns + n1 + 1, ma, none, none)
            else none
          | [] => none

/-- `\(r(?:ev)?\.?\s*(\d+)\)` and bracket variant at the current position.
Taking `ev` when present is forced (an `e` can never satisfy the rest). -/
def revAt (op cl : Char) (cs : List Char) : Option (Nat × Nat) :=
  match cs with
  | [] => none
  | c :: cs1 =>
    if c ≠ op then none
    else
      match cs1 with
      | r :: cs2 =>
        if r.toLower = 'r' then
          let evcs : Nat × List Char :=
            match occNoNl.matchLit ['e', 'v'] cs2 with
            | some _ => (2, cs2.drop 2)
            | none => (0, cs2)
          let dcs : Nat × List Char :=
            match evcs.2 with
            | '.' :: rest => (1, rest)
            | _ => (0, evcs.2)
          let scs := dcs.2.dropWhile (fun ch => isPySpace ch)
          let ns := dcs.2.length - scs.length
          match takeDigits scs with
          | none => none
          | some (rv, n1, cs3) =>
            match cs3 with
            | c3 :: _ =>
              if c3 = cl then some (1 + 1 + evcs.1 + dcs.1 + ns + n1 + 1, rv)
              else none
            | [] => none
        else none
      | [] => none

/-- `\(revision\s*(\d+)\)` and bracket variant at the current position. -/
def revisionAt (op cl : Char) (cs : List Char) : Option (Nat × Nat) :=
  match cs with
  | [] => none
  | c :: cs1 =>
    if c ≠ op then none
    else
      match occNoNl.matchLit "revision".data cs1 with
      | none => none
      | some nk =>
        let cs2 := cs1.drop nk
        let scs := cs2.dropWhile (fun ch => isPySpace ch)
        let ns := cs2.length - scs.length
        match takeDigits scs with
        | none => none
        | some (rv, n1, cs3) =>
          match cs3 with
          | c3 :: _ => if c3 = cl then some (1 + nk + ns + n1 + 1, rv) else none
          | [] => none

/-- `\((alpha|beta)\s*(\d+)(?:\.(\d+))?\)` and bracket variant at the
current position; returns (consumed, is-beta flag, major, minor?). -/
def abAt (op cl : Char) (cs : List Char) : Option (Nat × Bool × Nat × Option Nat) :=
  match cs with
  | [] => none
  | c :: cs1 =>
    if c ≠ op then none
    else
      let kcs : Option (Bool × Nat × List Char) :=
        match occNoNl.matchLit "alpha".data cs1 with
        | some _ => some (false, 5, cs1.drop 5)
        | none =>
          match occNoNl.matchLit "beta".data cs1 with
          | some _ => some (true, 4, cs1.drop 4)
          | none => none
      match kcs with
      | none => none
      | some (isBeta, nk, cs2) =>
        let scs := cs2.dropWhile (fun ch => isPySpace ch)
        let ns := cs2.length - scs.length
        match takeDigits scs with
        | none => none
        | some (ma, n1, cs3) =>
          match cs3 with
          | '.' :: cs4 =>
            match takeDigits cs4 with
            | none => none
            | some (mi, n2, cs5) =>
              match cs5 with
              | c5 :: _ =>
                if c5 = cl then
                  some (1 + nk + ns + n1 + 1 + n2 + 1, isBeta, ma, some mi)
                else none
              | [] => none
          | c3 :: _ =>
            if c3 = cl then some (1 + nk + ns + n1 + 1, isBeta, ma, none)
            else none
          | [] => none

/-- Leftmost search for an at-position matcher (Python `re.search`). -/
def vsearch {α : Type} (m : List Char → Option α) : List Char → Option α
  | [] => m []
  | c :: cs =>
    match m (c :: cs) with
    | some r => some r
    | none => vsearch m cs

/-- `ROMAnalyzer.detect_version`: try the twelve version patterns in list
order — standard numeric (paren, bracket), `ver`, `version`, revision
(`r`/`rev`, `revision`), alpha/beta — and return on the first match,
constructing the 4-tuple (release stage, major, minor, patch/revision);
default `(2, 1, 0, 0)` when nothing matches. -/
def detect_version (filename : List Char) : Nat × Nat × Nat × Nat :=
  match vsearch (stdAt '(' ')') filename with
  | some (_, ma, mi, pa) => (2, ma, mi, pa.getD 0)
  | none =>
  match vsearch (stdAt '[' ']') filename with
  | some (_, ma, mi, pa) => (2, ma, mi, pa.getD 0)
  | none =>
  match vsearch (verAt '(' ')' "ver".data true) filename with
  | some (_, ma, mi, pa) => (2, ma, mi.getD 0, pa.getD 0)
  | none =>
  match vsearch (verAt '[' ']' "ver".data true) filename with
  | some (_, ma, mi, pa) => (2, ma, mi.getD 0, pa.getD 0)
  | none =>
  match vsearch (verAt '(' ')' "version".data false) filename with
  | some (_, ma, mi, pa) => (2, ma, mi.getD 0, pa.getD 0)
  | none =>
  match vsearch (verAt '[' ']' "version".data false) filename with
  | some (_, ma, mi, pa) => (2, ma, mi.getD 0, pa.getD 0)
  | none =>
  match vsearch (revAt '(' ')') filename with
  | some (_, rv) => (2, 0, 0, rv)
  | none =>
  match vsearch (revAt '[' ']') filename with
  | some (_, rv) => (2, 0, 0, rv)
  | none =>
  match vsearch (revisionAt '(' ')') filename with
  | some (_, rv) => (2, 0, 0, rv)
  | none =>
  match vsearch (revisionAt '[' ']') filename with
  | some (_, rv) => (2, 0, 0, rv)
  | none =>
  match vsearch (abAt '(' ')') filename with
  | some (_, isBeta, ma, mi) => (if isBeta then 1 else 0, ma, mi.getD 0, 0)
  | none =>
  match vsearch (abAt '[' ']') filename with
  | some (_, isBeta, ma, mi) => (if isBeta then 1 else 0, ma, mi.getD 0, 0)
  | none => (2, 1, 0, 0)

/-- The twelve version matchers as length-only matchers, in source list
order, for the version-stripping pass of `get_base_filename`. -/
def version_matchers : List (List Char → Option Nat) := [
  fun cs => (stdAt '(' ')' cs).map (fun r => r.1),
  fun cs => (stdAt '[' ']' cs).map (fun r => r.1),
  fun cs => (verAt '(' ')' "ver".data true cs).map (fun r => r.1),
  fun cs => (verAt '[' ']' "ver".data true cs).map (fun r => r.1),
  fun cs => (verAt '(' ')' "version".data false cs).map (fun r => r.1),
  fun cs => (verAt '[' ']' "version".data false cs).map (fun r => r.1),
  fun cs => (revAt '(' ')' cs).map (fun r => r.1),
  fun cs => (revAt '[' ']' cs).map (fun r => r.1),
  fun cs => (revisionAt '(' ')' cs).map (fun r => r.1),
  fun cs => (revisionAt '[' ']' cs).map (fun r => r.1),
  fun cs => (abAt '(' ')' cs).map (fun r => r.1),
  fun cs => (abAt '[' ']' cs).map (fun r => r.1)]

/-! ### Normalizer (`ROMAnalyzer.get_base_filename`) -/

/-- Extension stripping of `get_base_filename`: `Path(filename).stem`,
then once more when the remaining suffix is a compression extension. -/
def strip_extension (filename : List Char) : List Char :=
  let name := pyStem filename
  if toLowerL (pySuffix name) ∈ [".7z".data, ".zip".data, ".rar".data] then
    pyStem name
  else name

/-- Region-tag removal pass of `get_base_filename`: only the fully
parenthesis/bracket-delimited region patterns are substituted away. -/
def remove_region_tags (name : List Char) : List Char :=
  region_patterns.foldl
    (fun s rp =>
      rp.2.foldl
        (fun s p => if p.delim then subAll (mtG p.items none) [] s else s) s)
    name

/-- Special-tag removal pass of `get_base_filename`. -/
def remove_special_tags (name : List Char) : List Char :=
  special_patterns.foldl
    (fun s sp => sp.2.foldl (fun s p => subAll (mtG p none) [] s) s) name

/-- Version-tag removal pass of `get_base_filename`. -/
def remove_version_tags (name : List Char) : List Char :=
  version_matchers.foldl (fun s m => subAll m [] s) name

/-- Empty `()` and `[]` removal pass of `get_base_filename`. -/
def remove_empty_delims (name : List Char) : List Char :=
  let name := subAll (mtG [S0, L "(", S0, L ")"] none) [] name
  subAll (mtG [S0, L "[", S0, L "]"] none) [] name

/-- Whitespace-collapse pass of `get_base_filename` (`re.sub(r'\s+', ' ')`). -/
def collapse_ws (name : List Char) : List Char :=
  subAll (mtG [S1] none) [' '] name

/-- `ROMAnalyzer.get_base_filename`: strip the extension (twice when the
inner suffix is a compression extension), remove every
parenthesis/bracket-delimited region pattern, every special pattern and
every version pattern (case-insensitively), drop empty `()` / `[]`,
collapse whitespace runs to single spaces and strip the ends. -/
def get_base_filename (filename : List Char) : List Char :=
  pyStrip (collapse_ws (remove_empty_delims (remove_version_tags
    (remove_special_tags (remove_region_tags (strip_extension filename))))))

/-! ### Grouper / best-version selection -/

/-- Strict lexicographic `<` on Python 4-tuples of ints. -/
def vLt (a b : Nat × Nat × Nat × Nat) : Bool :=
  if a.1 ≠ b.1 then a.1 < b.1
  else if a.2.1 ≠ b.2.1 then a.2.1 < b.2.1
  else if a.2.2.1 ≠ b.2.2.1 then a.2.2.1 < b.2.2.1
  else a.2.2.2 < b.2.2.2

/-- The sort key of `get_best_version_rom`: (version tuple, format score). -/
def vkey (f : List Char) : (Nat × Nat × Nat × Nat) × Nat :=
  (detect_version f, get_format_preference f)

/-- Strict lexicographic `<` on the (version, format) key. -/
def keyLt (a b : (Nat × Nat × Nat × Nat) × Nat) : Bool :=
  vLt a.1 b.1 || (a.1 = b.1 && a.2 < b.2)

/-- `ROMAnalyzer.get_best_version_rom`: drop save states, then Python
`max(..., key=(version, format))` — the first item with the maximal key
(replace only on strictly greater). -/
def get_best_version_rom (rom_files : List (List Char)) : Option (List Char) :=
  let actual := rom_files.filter (fun f => !is_save_state f)
  match actual with
  | [] => none
  | x :: xs =>
    some (xs.foldl (fun best y => if keyLt (vkey best) (vkey y) then y else best) x)

/-! ### Bulk move operations

The filesystem move (`shutil.move` plus the collision-renaming loop on the
destination name) is abstracted as a success oracle `moveOk`: the `try`
block around each item succeeds iff `moveOk name`, in which case the item
name is appended to the returned moved list; on failure the exception is
caught, the error is printed, and the loop continues with the next item. -/

/-- The `keep_regions` set of `move_files_keep_main_regions`. -/
def keep_regions : List String := ["USA", "Europe", "Japan", "World"]

/-- `ROMAnalyzer.move_files_keep_main_regions`: move every file none of
whose detected regions is a keep region. -/
def move_files_keep_main_regions (rom_files : List (List Char))
    (moveOk : List Char → Bool) : List (List Char) :=
  match rom_files with
  | [] => []
  | f :: fs =>
    let regions := detect_regions f
    let shouldMove := !(regions.any (fun r => r ∈ keep_regions))
    if shouldMove then
      if moveOk f then f :: move_files_keep_main_regions fs moveOk
      else move_files_keep_main_regions fs moveOk
    else move_files_keep_main_regions fs moveOk

/-- The selection predicate of `move_files_by_criteria`: an unrecognised
criteria type leaves `should_move` false. -/
def shouldMoveCrit (criteria_type criteria_value : String) (f : List Char) :
    Bool :=
  if criteria_type = "region" then criteria_value ∈ detect_regions f
  else if criteria_type = "special" then criteria_value ∈ detect_special_versions f
  else if criteria_type = "unknown_region" then "Unknown" ∈ detect_regions f
  else false

/-- `ROMAnalyzer.move_files_by_criteria`. -/
def move_files_by_criteria (rom_files : List (List Char))
    (criteria_type criteria_value : String) (moveOk : List Char → Bool) :
    List (List Char) :=
  match rom_files with
  | [] => []
  | f :: fs =>
    if shouldMoveCrit criteria_type criteria_value f then
      if moveOk f then
        f :: move_files_by_criteria fs criteria_type criteria_value moveOk
      else move_files_by_criteria fs criteria_type criteria_value moveOk
    else move_files_by_criteria fs criteria_type criteria_value moveOk

/-! ### Generic lemmas about the matching engine -/

theorem charOfNat_toNat (m : Nat) (h : m < 55296) : (Char.ofNat m).toNat = m := by
  have hv : m.isValidChar := Or.inl h
  rw [Char.ofNat, dif_pos hv]
  simp only [Char.ofNatAux, Char.toNat, UInt32.ofNat']
  simp [UInt32.toNat, BitVec.toNat_ofNatLt]

/-- ASCII lower-casing reflects equality with any char that is neither an
upper-case nor a lower-case basic latin letter (such as `(`, `[`, `.`). -/
theorem toLower_eq_iff (c d : Char)
    (hd : d.toNat < 65 ∨ (90 < d.toNat ∧ d.toNat < 97) ∨ 122 < d.toNat) :
    c.toLower = d ↔ c = d := by
  unfold Char.toLower
  simp only []
  split
  · rename_i hr
    constructor
    · intro h
      exfalso
      have h2 : (Char.ofNat (c.toNat + 32)).toNat = c.toNat + 32 := by
        apply charOfNat_toNat
        omega
      rw [h] at h2
      omega
    · intro h
      exfalso
      have hcd : c.toNat = d.toNat := by rw [h]
      omega
  · exact Iff.rfl

/-- If the at-position matcher fails at every non-empty suffix, `subFuel`
is the identity. -/
theorem subFuel_id (m : List Char → Option Nat) (rep : List Char) :
    ∀ (fuel : Nat) (cs : List Char),
      (∀ c cs2, (c :: cs2) <:+ cs → m (c :: cs2) = none) →
      subFuel m rep fuel cs = cs := by
  intro fuel
  induction fuel with
  | zero => intro cs _; cases cs <;> rfl
  | succ fuel ih =>
    intro cs h
    cases cs with
    | nil => rfl
    | cons c cs =>
      have h0 : m (c :: cs) = none := h c cs (List.suffix_refl _)
      simp only [subFuel, h0]
      rw [ih cs]
      intro d ds hsuf
      exact h d ds (hsuf.trans (List.suffix_cons c cs))

/-- A pattern that begins with a literal fails wherever the first input
char does not case-fold to the literal head. -/
theorem mtG_lit_head_ne (a : Char) (w : List Char) (ps : List PItem)
    (prev : Option Char) (c : Char) (cs : List Char) (h : c.toLower ≠ a) :
    mtG (.lit (a :: w) :: ps) prev (c :: cs) = none := by
  simp [mtG, litStep, h]

theorem mtG_lit_nil (a : Char) (w : List Char) (ps : List PItem)
    (prev : Option Char) :
    mtG (.lit (a :: w) :: ps) prev [] = none := by
  simp [mtG, litStep]

/-- If the continuation fails at every suffix, the star loop fails. -/
theorem starStep_none (k2 : CK) (k : Option Char → List Char → Option Nat) :
    ∀ (cs : List Char) (prev : Option Char),
      (∀ prev2 cs2, cs2 <:+ cs → k prev2 cs2 = none) →
      starStep k2 k prev cs = none := by
  intro cs
  induction cs with
  | nil =>
    intro prev h
    simp only [starStep]
    exact h prev [] (List.suffix_refl _)
  | cons c cs ih =>
    intro prev h
    simp only [starStep]
    split
    · rw [ih (some c) (fun p2 cs2 hs => h p2 cs2 (hs.trans (List.suffix_cons c cs)))]
      exact h prev (c :: cs) (List.suffix_refl _)
    · exact h prev (c :: cs) (List.suffix_refl _)

/-- A literal-headed pattern fails on a string none of whose chars folds to
the literal head. -/
theorem mtG_lit_none_of_clean (a : Char) (w : List Char) (ps : List PItem)
    (cs : List Char) (h : ∀ c ∈ cs, c.toLower ≠ a) :
    ∀ prev, mtG (.lit (a :: w) :: ps) prev cs = none := by
  intro prev
  cases cs with
  | nil => exact mtG_lit_nil a w ps prev
  | cons c cs => exact mtG_lit_head_ne a w ps prev c cs (h c (by simp))

/-- Likewise for a pattern that begins `\s*` before the literal. -/
theorem mtG_star_lit_none_of_clean (k2 : CK) (a : Char) (w : List Char)
    (ps : List PItem) (cs : List Char) (h : ∀ c ∈ cs, c.toLower ≠ a) :
    ∀ prev, mtG (.star k2 :: .lit (a :: w) :: ps) prev cs = none := by
  intro prev
  simp only [mtG]
  apply starStep_none
  intro prev2 cs2 hs
  exact mtG_lit_none_of_clean a w ps cs2
    (fun c hc => h c (hs.subset hc)) prev2

/-! ### Cleanness: strings without parentheses, brackets or dots -/

/-- A char that is none of `(`, `[`, `.` (such chars can start no
tag-removal pattern). -/
def cleanChar (c : Char) : Bool := c != '(' && c != '[' && c != '.'

/-- A string all of whose chars are clean. -/
def cleanStr (cs : List Char) : Bool := cs.all cleanChar

theorem cleanChar_spec (c : Char) (h : cleanChar c = true) :
    c ≠ '(' ∧ c ≠ '[' ∧ c ≠ '.' ∧ c.toLower ≠ '(' ∧ c.toLower ≠ '[' := by
  simp only [cleanChar, Bool.and_eq_true, bne_iff_ne] at h
  obtain ⟨⟨h1, h2⟩, h3⟩ := h
  refine ⟨h1, h2, h3, ?_, ?_⟩
  · intro hl
    exact h1 ((toLower_eq_iff c '(' (by left; decide)).mp hl)
  · intro hl
    exact h2 ((toLower_eq_iff c '[' (by right; left; constructor <;> decide)).mp hl)

theorem cleanStr_suffix {cs cs2 : List Char} (h : cleanStr cs = true)
    (hs : cs2 <:+ cs) : cleanStr cs2 = true := by
  simp only [cleanStr, List.all_eq_true] at h ⊢
  exact fun c hc => h c (hs.subset hc)

/-- Folding a list of steps that individually fix `b` fixes `b`. -/
theorem foldl_fix {α β : Type} (f : β → α → β) (l : List α) (b : β)
    (h : ∀ a ∈ l, f b a = b) : l.foldl f b = b := by
  induction l with
  | nil => rfl
  | cons a l ih =>
    simp only [List.foldl_cons, h a (by simp)]
    exact ih (fun x hx => h x (by simp [hx]))

/-- Does a compiled pattern begin with a `(` or `[` literal?  Every
tag-removal pattern used by `get_base_filename` does. -/
def startsDelimB : List PItem → Bool
  | .lit (a :: _) :: _ => a = '(' || a = '['
  | _ => false

theorem mtG_none_of_startsDelim (p : List PItem) (hp : startsDelimB p = true)
    (cs : List Char) (h : cleanStr cs = true) (prev : Option Char) :
    mtG p prev cs = none := by
  cases p with
  | nil => simp [startsDelimB] at hp
  | cons i ps =>
    cases i with
    | lit w =>
      cases w with
      | nil => simp [startsDelimB] at hp
      | cons a w =>
        have ha : a = '(' ∨ a = '[' := by
          simp only [startsDelimB, Bool.or_eq_true, decide_eq_true_eq] at hp
          exact hp
        apply mtG_lit_none_of_clean
        intro c hc
        have hcl := cleanChar_spec c (by
          simp only [cleanStr, List.all_eq_true] at h
          exact h c hc)
        rcases ha with rfl | rfl
        · exact hcl.2.2.2.1
        · exact hcl.2.2.2.2
    | opt w => simp [startsDelimB] at hp
    | optC k => simp [startsDelimB] at hp
    | one k => simp [startsDelimB] at hp
    | star k => simp [startsDelimB] at hp
    | plus k => simp [startsDelimB] at hp
    | wb => simp [startsDelimB] at hp
    | negSub w => simp [startsDelimB] at hp
    | negLit w => simp [startsDelimB] at hp

theorem subAll_id_of_startsDelim (p : List PItem) (hp : startsDelimB p = true)
    (cs : List Char) (h : cleanStr cs = true) (rep : List Char) :
    subAll (mtG p none) rep cs = cs := by
  apply subFuel_id
  intro c cs2 hs
  exact mtG_none_of_startsDelim p hp (c :: cs2) (cleanStr_suffix h hs) none

/-! ### The tag-removal passes fix clean strings -/

theorem stdAt_none_of_clean (op cl : Char) (hop : op = '(' ∨ op = '[')
    (c : Char) (cs : List Char) (h : cleanChar c = true) :
    stdAt op cl (c :: cs) = none := by
  have hcl := cleanChar_spec c h
  have hne : c ≠ op := by
    rcases hop with rfl | rfl
    · exact hcl.1
    · exact hcl.2.1
  simp [stdAt, hne]

theorem verAt_none_of_clean (op cl : Char) (kw : List Char) (od : Bool)
    (hop : op = '(' ∨ op = '[') (c : Char) (cs : List Char)
    (h : cleanChar c = true) : verAt op cl kw od (c :: cs) = none := by
  have hcl := cleanChar_spec c h
  have hne : c ≠ op := by
    rcases hop with rfl | rfl
    · exact hcl.1
    · exact hcl.2.1
  simp [verAt, hne]

theorem revAt_none_of_clean (op cl : Char) (hop : op = '(' ∨ op = '[')
    (c : Char) (cs : List Char) (h : cleanChar c = true) :
    revAt op cl (c :: cs) = none := by
  have hcl := cleanChar_spec c h
  have hne : c ≠ op := by
    rcases hop with rfl | rfl
    · exact hcl.1
    · exact hcl.2.1
  simp [revAt, hne]

theorem revisionAt_none_of_clean (op cl : Char) (hop : op = '(' ∨ op = '[')
    (c : Char) (cs : List Char) (h : cleanChar c = true) :
    revisionAt op cl (c :: cs) = none := by
  have hcl := cleanChar_spec c h
  have hne : c ≠ op := by
    rcases hop with rfl | rfl
    · exact hcl.1
    · exact hcl.2.1
  simp [revisionAt, hne]

theorem abAt_none_of_clean (op cl : Char) (hop : op = '(' ∨ op = '[')
    (c : Char) (cs : List Char) (h : cleanChar c = true) :
    abAt op cl (c :: cs) = none := by
  have hcl := cleanChar_spec c h
  have hne : c ≠ op := by
    rcases hop with rfl | rfl
    · exact hcl.1
    · exact hcl.2.1
  simp [abAt, hne]

theorem cleanChar_of_mem {cs : List Char} {c : Char}
    (h : cleanStr cs = true) (hc : c ∈ cs) : cleanChar c = true := by
  simp only [cleanStr, List.all_eq_true] at h
  exact h c hc

/-- The region-stripping pass of `get_base_filename` fixes clean strings. -/
theorem regions_pass_fix (cs : List Char) (h : cleanStr cs = true) :
    remove_region_tags cs = cs := by
  unfold remove_region_tags
  apply foldl_fix
  intro rp hrp
  apply foldl_fix
  intro p hp
  by_cases hd : p.delim = true
  · simp only [hd, if_true]
    apply subAll_id_of_startsDelim _ _ _ h
    have tb : region_patterns.all
        (fun rp => rp.2.all (fun p => !p.delim || startsDelimB p.items)) = true := by
      decide
    simp only [List.all_eq_true] at tb
    have := tb rp hrp p hp
    simp only [hd, Bool.not_true, Bool.false_or] at this
    exact this
  · simp [hd]

/-- The special-tag pass fixes clean strings. -/
theorem specials_pass_fix (cs : List Char) (h : cleanStr cs = true) :
    remove_special_tags cs = cs := by
  unfold remove_special_tags
  apply foldl_fix
  intro sp hsp
  apply foldl_fix
  intro p hp
  apply subAll_id_of_startsDelim _ _ _ h
  have tb : special_patterns.all
      (fun sp => sp.2.all (fun p => startsDelimB p)) = true := by
    decide
  simp only [List.all_eq_true] at tb
  exact tb sp hsp p hp

/-- The version-stripping pass fixes clean strings. -/
theorem versions_pass_fix (cs : List Char) (h : cleanStr cs = true) :
    remove_version_tags cs = cs := by
  unfold remove_version_tags
  apply foldl_fix
  intro m hm
  simp only [version_matchers, List.mem_cons, List.not_mem_nil, or_false] at hm
  have key : ∀ c cs2, (c :: cs2) <:+ cs → m (c :: cs2) = none := by
    intro c cs2 hs
    have hc : cleanChar c = true :=
      cleanChar_of_mem h (hs.subset (by simp))
    rcases hm with rfl | rfl | rfl | rfl | rfl | rfl | rfl | rfl | rfl | rfl | rfl | rfl
    · simp [stdAt_none_of_clean '(' ')' (Or.inl rfl) c cs2 hc]
    · simp [stdAt_none_of_clean '[' ']' (Or.inr rfl) c cs2 hc]
    · simp [verAt_none_of_clean '(' ')' _ _ (Or.inl rfl) c cs2 hc]
    · simp [verAt_none_of_clean '[' ']' _ _ (Or.inr rfl) c cs2 hc]
    · simp [verAt_none_of_clean '(' ')' _ _ (Or.inl rfl) c cs2 hc]
    · simp [verAt_none_of_clean '[' ']' _ _ (Or.inr rfl) c cs2 hc]
    · simp [revAt_none_of_clean '(' ')' (Or.inl rfl) c cs2 hc]
    · simp [revAt_none_of_clean '[' ']' (Or.inr rfl) c cs2 hc]
    · simp [revisionAt_none_of_clean '(' ')' (Or.inl rfl) c cs2 hc]
    · simp [revisionAt_none_of_clean '[' ']' (Or.inr rfl) c cs2 hc]
    · simp [abAt_none_of_clean '(' ')' (Or.inl rfl) c cs2 hc]
    · simp [abAt_none_of_clean '[' ']' (Or.inr rfl) c cs2 hc]
  exact subFuel_id _ _ _ _ key

/-- The empty-parenthesis pass fixes clean strings. -/
theorem emptyParen_pass_fix (cs : List Char) (h : cleanStr cs = true) :
    subAll (mtG [S0, L "(", S0, L ")"] none) [] cs = cs := by
  apply subFuel_id
  intro c cs2 hs
  have h2 := cleanStr_suffix h hs
  have : (mtG [PItem.star CK.space, PItem.lit ['('],
      PItem.star CK.space, PItem.lit [')']] none (c :: cs2)) = none := by
    apply mtG_star_lit_none_of_clean
    intro x hx
    exact (cleanChar_spec x (cleanChar_of_mem h2 hx)).2.2.2.1
  exact this

/-- The empty-bracket pass fixes clean strings. -/
theorem emptyBracket_pass_fix (cs : List Char) (h : cleanStr cs = true) :
    subAll (mtG [S0, L "[", S0, L "]"] none) [] cs = cs := by
  apply subFuel_id
  intro c cs2 hs
  have h2 := cleanStr_suffix h hs
  have : (mtG [PItem.star CK.space, PItem.lit ['['],
      PItem.star CK.space, PItem.lit [']']] none (c :: cs2)) = none := by
    apply mtG_star_lit_none_of_clean
    intro x hx
    exact (cleanChar_spec x (cleanChar_of_mem h2 hx)).2.2.2.2
  exact this

/-! ### Whitespace invariants of the collapse-and-strip tail of the
normalizer -/

/-- Every whitespace char is a plain space. -/
def allWsSpace (cs : List Char) : Bool :=
  cs.all (fun c => !isPySpace c || c = ' ')

/-- No two adjacent whitespace chars. -/
def noAdjWs : List Char → Bool
  | c1 :: c2 :: t => (!(isPySpace c1 && isPySpace c2)) && noAdjWs (c2 :: t)
  | _ => true

/-- Collapsed-whitespace invariant. -/
def wsOK (cs : List Char) : Bool := allWsSpace cs && noAdjWs cs

theorem wsOK_nil : wsOK [] = true := rfl

theorem wsOK_cons_iff (c : Char) (t : List Char) :
    wsOK (c :: t) = true ↔
      ((isPySpace c = true → c = ' ') ∧ wsOK t = true ∧
        (∀ d, t.head? = some d → ¬(isPySpace c = true ∧ isPySpace d = true))) := by
  cases t with
  | nil =>
    by_cases h : isPySpace c = true
    · simp [wsOK, allWsSpace, noAdjWs, h]
    · simp [wsOK, allWsSpace, noAdjWs, h]
  | cons d t =>
    simp only [wsOK, allWsSpace, noAdjWs, List.all_cons, Bool.and_eq_true,
      Bool.or_eq_true, Bool.not_eq_true', List.head?_cons, Option.some.injEq]
    constructor
    · rintro ⟨⟨hc, hd, ht⟩, hadj, hrest⟩
      refine ⟨?_, ⟨⟨hd, ht⟩, hrest⟩, ?_⟩
      · intro hsp
        rcases hc with h | h
        · rw [h] at hsp; cases hsp
        · exact (by simpa using h)
      · intro e he ⟨h1, h2⟩
        subst he
        rw [h1, h2] at hadj
        simp at hadj
    · rintro ⟨hc, ⟨⟨hd, ht⟩, hrest⟩, hadj⟩
      refine ⟨⟨?_, hd, ht⟩, ?_, hrest⟩
      · by_cases hsp : isPySpace c = true
        · right; simpa using hc hsp
        · left; simpa using hsp
      · by_cases h1 : isPySpace c = true
        · by_cases h2 : isPySpace d = true
          · exact absurd ⟨h1, h2⟩ (hadj d rfl)
          · simp [h1, h2]
        · simp [h1]

theorem wsOK_tail {c : Char} {t : List Char} (h : wsOK (c :: t) = true) :
    wsOK t = true := ((wsOK_cons_iff c t).mp h).2.1

/-- `\s*` with an always-zero continuation succeeds and consumes exactly
the leading whitespace run. -/
theorem starStep_space_run (k : Option Char → List Char → Option Nat)
    (hk : ∀ prev cs, k prev cs = some 0) :
    ∀ (cs : List Char) (prev : Option Char),
      starStep CK.space k prev cs =
        some (cs.takeWhile isPySpace).length := by
  intro cs
  induction cs with
  | nil => intro prev; simp [starStep, hk]
  | cons c cs ih =>
    intro prev
    by_cases h : isPySpace c
    · have h2 : ckMatch CK.space c = true := by simp [ckMatch, h]
      simp only [starStep, h2, if_true, ih (some c)]
      simp [List.takeWhile_cons, h]
    · have h2 : ckMatch CK.space c = false := by simp [ckMatch, h]
      simp only [starStep, h2, Bool.false_eq_true, if_false, hk]
      simp [List.takeWhile_cons, h]

/-- The whitespace-collapse matcher `\s+` on a non-empty string. -/
theorem collM_cons (c : Char) (cs : List Char) :
    mtG [S1] none (c :: cs) =
      if isPySpace c then some ((cs.takeWhile isPySpace).length + 1)
      else none := by
  by_cases h : isPySpace c
  · have h2 : ckMatch CK.space c = true := by simp [ckMatch, h]
    have hrun := starStep_space_run (mtG []) (fun _ _ => rfl) cs (some c)
    simp only [S1, mtG, h2, if_true, h]
    rw [show starStep CK.space (fun _ _ => (some 0 : Option Nat)) (some c) cs =
      some (List.takeWhile isPySpace cs).length from hrun]
    rfl
  · have h2 : ckMatch CK.space c = false := by simp [ckMatch, h]
    simp [S1, mtG, h2, h]

theorem drop_takeWhile_length (p : Char → Bool) :
    ∀ (l : List Char), List.drop (l.takeWhile p).length l = l.dropWhile p := by
  intro l
  induction l with
  | nil => rfl
  | cons c l ih =>
    by_cases h : p c
    · simp [List.takeWhile, List.dropWhile, h, ih]
    · simp [List.takeWhile, List.dropWhile, h]

theorem dropWhile_head_not (p : Char → Bool) :
    ∀ (l : List Char) (d : Char), (l.dropWhile p).head? = some d → p d = false := by
  intro l
  induction l with
  | nil => intro d h; cases h
  | cons c l ih =>
    intro d h
    by_cases hc : p c
    · rw [List.dropWhile_cons_of_pos hc] at h
      exact ih d h
    · rw [List.dropWhile_cons_of_neg hc] at h
      cases h
      simpa using hc

/-- The collapse pass preserves a non-whitespace head. -/
theorem subFuel_head_nonws (fuel : Nat) (rest : List Char)
    (h : ∀ d, rest.head? = some d → isPySpace d = false) :
    (subFuel (mtG [S1] none) [' '] fuel rest).head? = rest.head? := by
  cases rest with
  | nil => cases fuel <;> rfl
  | cons d t =>
    cases fuel with
    | zero => rfl
    | succ fuel =>
      have hd : isPySpace d = false := h d rfl
      simp only [subFuel, collM_cons, hd, Bool.false_eq_true, if_false]
      rfl

/-- The collapse pass establishes the collapsed-whitespace invariant. -/
theorem collapse_wsOK :
    ∀ (fuel : Nat) (cs : List Char), cs.length ≤ fuel →
      wsOK (subFuel (mtG [S1] none) [' '] fuel cs) = true := by
  intro fuel
  induction fuel with
  | zero =>
    intro cs h
    have : cs = [] := List.length_eq_zero.mp (Nat.le_zero.mp h)
    subst this
    rfl
  | succ fuel ih =>
    intro cs hlen
    cases cs with
    | nil => rfl
    | cons c cs =>
      by_cases h : isPySpace c = true
      · have hrun : mtG [S1] none (c :: cs) =
            some ((cs.takeWhile isPySpace).length + 1) := by
          rw [collM_cons]; simp [h]
        simp only [subFuel, hrun]
        rw [drop_takeWhile_length]
        have hrest : ∀ d, (cs.dropWhile isPySpace).head? = some d →
            isPySpace d = false := fun d hd => dropWhile_head_not isPySpace cs d hd
        have hlen2 : (cs.dropWhile isPySpace).length ≤ fuel := by
          have h1 : (cs.dropWhile isPySpace).length ≤ cs.length :=
            (List.dropWhile_suffix isPySpace).length_le
          simp at hlen
          omega
        have hout := ih (cs.dropWhile isPySpace) hlen2
        rw [List.singleton_append]
        rw [wsOK_cons_iff]
        refine ⟨fun _ => rfl, hout, ?_⟩
        intro d hd
        rw [subFuel_head_nonws fuel _ hrest] at hd
        have := hrest d hd
        simp [this]
      · have hnone : mtG [S1] none (c :: cs) = none := by
          rw [collM_cons]; simp [h]
        simp only [subFuel, hnone]
        have hout := ih cs (by simp at hlen; omega)
        rw [wsOK_cons_iff]
        refine ⟨fun hc => absurd hc (by simp [h]), hout, ?_⟩
        intro d hd
        simp [h]

/-- The collapse pass fixes strings satisfying the invariant. -/
theorem collapse_fix :
    ∀ (fuel : Nat) (cs : List Char), wsOK cs = true →
      subFuel (mtG [S1] none) [' '] fuel cs = cs := by
  intro fuel
  induction fuel with
  | zero => intro cs _; cases cs <;> rfl
  | succ fuel ih =>
    intro cs hws
    cases cs with
    | nil => rfl
    | cons c cs =>
      have hiff := (wsOK_cons_iff c cs).mp hws
      by_cases h : isPySpace c = true
      · have hsp : c = ' ' := hiff.1 h
        have htw : cs.takeWhile isPySpace = [] := by
          cases cs with
          | nil => rfl
          | cons d t =>
            have := hiff.2.2 d rfl
            have hd : isPySpace d = false := by
              by_cases hd2 : isPySpace d = true
              · exact absurd ⟨h, hd2⟩ this
              · simpa using hd2
            simp [List.takeWhile_cons, hd]
        have hrun : mtG [S1] none (c :: cs) = some 1 := by
          rw [collM_cons]; simp [h, htw]
        simp only [subFuel, hrun, List.drop_zero]
        rw [ih cs hiff.2.1, List.singleton_append, hsp]
      · have hnone : mtG [S1] none (c :: cs) = none := by
          rw [collM_cons]; simp [h]
        simp only [subFuel, hnone]
        rw [ih cs hiff.2.1]

theorem noAdjWs_iff_chain (l : List Char) :
    noAdjWs l = true ↔
      List.Chain' (fun a b => ¬(isPySpace a = true ∧ isPySpace b = true)) l := by
  induction l with
  | nil => simp [noAdjWs]
  | cons c t ih =>
    cases t with
    | nil => simp [noAdjWs]
    | cons d t =>
      rw [List.chain'_cons]
      simp only [noAdjWs, Bool.and_eq_true, Bool.not_eq_true']
      rw [ih]
      constructor
      · rintro ⟨h1, h2⟩
        refine ⟨?_, h2⟩
        intro hab
        rw [hab.1, hab.2] at h1
        simp at h1
      · rintro ⟨h1, h2⟩
        constructor
        · by_cases hc : isPySpace c = true
          · by_cases hd : isPySpace d = true
            · exact absurd ⟨hc, hd⟩ h1
            · simp [hc, hd]
          · simp [hc]
        · exact h2

theorem wsOK_reverse (l : List Char) :
    wsOK l.reverse = true ↔ wsOK l = true := by
  simp only [wsOK, Bool.and_eq_true]
  rw [noAdjWs_iff_chain, noAdjWs_iff_chain, List.chain'_reverse]
  constructor
  · rintro ⟨h1, h2⟩
    refine ⟨by simpa [allWsSpace] using h1, ?_⟩
    exact h2.imp (fun a b h hab => h ⟨hab.2, hab.1⟩)
  · rintro ⟨h1, h2⟩
    refine ⟨by simpa [allWsSpace] using h1, ?_⟩
    exact h2.imp (fun a b h hab => h ⟨hab.2, hab.1⟩)

theorem wsOK_suffix : ∀ (l l2 : List Char), l2 <:+ l → wsOK l = true →
    wsOK l2 = true := by
  intro l
  induction l with
  | nil =>
    intro l2 hs _
    rw [List.suffix_nil.mp hs]
    rfl
  | cons c t ih =>
    intro l2 hs hws
    rcases List.suffix_cons_iff.mp hs with rfl | hs2
    · exact hws
    · exact ih l2 hs2 (wsOK_tail hws)

theorem wsOK_dropWhile (p : Char → Bool) (l : List Char) (h : wsOK l = true) :
    wsOK (l.dropWhile p) = true :=
  wsOK_suffix l _ (List.dropWhile_suffix p) h

/-- `pyStrip` preserves the collapsed-whitespace invariant. -/
theorem wsOK_pyStrip (l : List Char) (h : wsOK l = true) :
    wsOK (pyStrip l) = true := by
  unfold pyStrip
  rw [wsOK_reverse]
  apply wsOK_dropWhile
  rw [wsOK_reverse]
  exact wsOK_dropWhile _ _ h

theorem dropWhile_fix (p : Char → Bool) (l : List Char)
    (h : ∀ d, l.head? = some d → p d = false) : l.dropWhile p = l := by
  cases l with
  | nil => rfl
  | cons c t =>
    have := h c rfl
    simp [List.dropWhile_cons, this]

/-- The ends of a `pyStrip` output are not whitespace. -/
theorem pyStrip_ends (X : List Char) :
    (∀ d, (pyStrip X).head? = some d → isPySpace d = false) ∧
      (∀ d, (pyStrip X).getLast? = some d → isPySpace d = false) := by
  unfold pyStrip
  constructor
  · intro d hd
    rw [List.head?_reverse] at hd
    set s1 := X.dropWhile isPySpace with hs1
    set s2 := s1.reverse.dropWhile isPySpace with hs2
    have hsuf : s2 <:+ s1.reverse := List.dropWhile_suffix isPySpace
    obtain ⟨pre, hpre⟩ := hsuf
    cases h2 : s2 with
    | nil => rw [h2] at hd; cases hd
    | cons e es =>
      have : s2.getLast? = s1.reverse.getLast? := by
        rw [← hpre, List.getLast?_append]
        rw [h2]
        simp [List.getLast?_cons]
      rw [this, List.getLast?_reverse] at hd
      exact dropWhile_head_not isPySpace X d hd
  · intro d hd
    rw [List.getLast?_reverse] at hd
    exact dropWhile_head_not isPySpace _ d hd

/-- `pyStrip` fixes strings whose two ends are not whitespace. -/
theorem pyStrip_fix (l : List Char)
    (hh : ∀ d, l.head? = some d → isPySpace d = false)
    (hl : ∀ d, l.getLast? = some d → isPySpace d = false) : pyStrip l = l := by
  unfold pyStrip
  rw [dropWhile_fix isPySpace l hh]
  rw [dropWhile_fix isPySpace l.reverse (by
    intro d hd
    rw [List.head?_reverse] at hd
    exact hl d hd)]
  exact List.reverse_reverse l

theorem pyStrip_idem (X : List Char) : pyStrip (pyStrip X) = pyStrip X :=
  pyStrip_fix _ (pyStrip_ends X).1 (pyStrip_ends X).2

/-! ### Idempotence toolkit for `get_base_filename` -/

theorem rfindDot_none (cs : List Char) (h : ∀ c ∈ cs, c ≠ '.') :
    rfindDot cs = none := by
  unfold rfindDot
  have : cs.reverse.findIdx? (fun c => c = '.') = none := by
    rw [List.findIdx?_eq_none_iff]
    intro c hc
    simp only [decide_eq_false_iff_not]
    exact h c (List.mem_reverse.mp hc)
  rw [this]

theorem strip_extension_fix (cs : List Char) (h : ∀ c ∈ cs, c ≠ '.') :
    strip_extension cs = cs := by
  have hsuf : pySuffix cs = [] := by
    unfold pySuffix
    rw [rfindDot_none cs h]
  have hstem : pyStem cs = cs := by
    unfold pyStem
    rw [hsuf]
    simp only [List.length_nil, Nat.sub_zero, List.take_length]
  have hse : strip_extension cs =
      if toLowerL (pySuffix (pyStem cs)) ∈
          [".7z".data, ".zip".data, ".rar".data] then
        pyStem (pyStem cs)
      else pyStem cs := rfl
  rw [hse, hstem, hsuf]
  simp [toLowerL]

theorem empty_delims_fix (cs : List Char) (h : cleanStr cs = true) :
    remove_empty_delims cs = cs := by
  unfold remove_empty_delims
  rw [emptyParen_pass_fix cs h, emptyBracket_pass_fix cs h]

theorem collapse_ws_fix (cs : List Char) (h : wsOK cs = true) :
    collapse_ws cs = cs :=
  collapse_fix cs.length cs h

/-- The output of the normalizer satisfies the collapsed-whitespace
invariant. -/
theorem get_base_filename_wsOK (x : List Char) :
    wsOK (get_base_filename x) = true := by
  unfold get_base_filename
  apply wsOK_pyStrip
  unfold collapse_ws subAll
  exact collapse_wsOK _ _ (Nat.le_refl _)

/-- The output of the normalizer is already stripped. -/
theorem get_base_filename_stripped (x : List Char) :
    pyStrip (get_base_filename x) = get_base_filename x := by
  unfold get_base_filename
  exact pyStrip_idem _

/-- Re-running the normalizer on a clean output is a no-op. -/
theorem get_base_filename_idem_of_clean (x : List Char)
    (h : cleanStr (get_base_filename x) = true) :
    get_base_filename (get_base_filename x) = get_base_filename x := by
  have hdot : ∀ c ∈ get_base_filename x, c ≠ '.' := by
    intro c hc
    exact (cleanChar_spec c (cleanChar_of_mem h hc)).2.2.1
  conv_lhs => rw [get_base_filename]
  rw [strip_extension_fix _ hdot, regions_pass_fix _ h, specials_pass_fix _ h,
    versions_pass_fix _ h, empty_delims_fix _ h,
    collapse_ws_fix _ (get_base_filename_wsOK x),
    get_base_filename_stripped x]

/-! ### Structural lemmas about `detect_regions` -/

/-- The region names of the pattern table. -/
def regionKeys : List String := region_patterns.map Prod.fst

theorem addRegion_mem {acc : List String} {x r : String}
    (h : r ∈ addRegion acc x) : r ∈ acc ∨ r = x := by
  unfold addRegion at h
  split at h
  · exact Or.inl h
  · rcases List.mem_append.mp h with h2 | h2
    · exact Or.inl h2
    · exact Or.inr (by simpa using h2)

theorem foldl_addRegion_mem (q : String × List RPat → Bool) :
    ∀ (l : List (String × List RPat)) (acc : List String) (r : String),
      r ∈ l.foldl (fun acc rp => if q rp then addRegion acc rp.1 else acc) acc →
      r ∈ acc ∨ r ∈ l.map Prod.fst := by
  intro l
  induction l with
  | nil => intro acc r h; exact Or.inl h
  | cons a l ih =>
    intro acc r h
    simp only [List.foldl_cons] at h
    rcases ih _ r h with h2 | h2
    · by_cases hq : q a = true
      · rw [hq, if_pos rfl] at h2
        rcases addRegion_mem h2 with h3 | h3
        · exact Or.inl h3
        · exact Or.inr (by simp [h3])
      · rw [eq_false_of_ne_true hq] at h2
        simp only [Bool.false_eq_true, if_false] at h2
        exact Or.inl h2
    · exact Or.inr (by simp only [List.map_cons, List.mem_cons]; exact Or.inr h2)

theorem regionsOfPart_mem {acc : List String} {part : List Char} {r : String}
    (h : r ∈ regionsOfPart acc part) : r ∈ acc ∨ r ∈ regionKeys := by
  have he : regionsOfPart acc part =
      if is_language_code (pyStrip part) = true then acc
      else
        region_patterns.foldl
          (fun acc rp =>
            if rp.2.any
                (fun p => psearch p.items ('(' :: pyStrip part ++ [')'])) then
              addRegion acc rp.1
            else acc)
          acc := rfl
  rw [he] at h
  split at h
  · exact Or.inl h
  · exact foldl_addRegion_mem _ region_patterns acc r h

theorem foldl_regionsOfPart_mem :
    ∀ (parts : List (List Char)) (acc : List String) (r : String),
      r ∈ parts.foldl regionsOfPart acc → r ∈ acc ∨ r ∈ regionKeys := by
  intro parts
  induction parts with
  | nil => intro acc r h; exact Or.inl h
  | cons p parts ih =>
    intro acc r h
    simp only [List.foldl_cons] at h
    rcases ih _ r h with h2 | h2
    · exact regionsOfPart_mem h2
    · exact Or.inr h2

theorem foldl_groups_mem :
    ∀ (groups : List (List Char)) (acc : List String) (r : String),
      r ∈ groups.foldl
        (fun acc grp => (splitComma grp).foldl regionsOfPart acc) acc →
      r ∈ acc ∨ r ∈ regionKeys := by
  intro groups
  induction groups with
  | nil => intro acc r h; exact Or.inl h
  | cons g groups ih =>
    intro acc r h
    simp only [List.foldl_cons] at h
    rcases ih _ r h with h2 | h2
    · exact foldl_regionsOfPart_mem _ _ _ h2
    · exact Or.inr h2

theorem regionsFromParts_mem {f : List Char} {r : String}
    (h : r ∈ regionsFromParts f) : r ∈ regionKeys := by
  unfold regionsFromParts at h
  rcases foldl_groups_mem (findGroups f) [] r h with h2 | h2
  · cases h2
  · exact h2

theorem regionsScan_mem {f : List Char} {r : String}
    (h : r ∈ regionsScan f) : r ∈ regionKeys := by
  unfold regionsScan at h
  rcases List.mem_filterMap.mp h with ⟨rp, hrp, hval⟩
  have : r = rp.1 := by
    by_cases hc : (rp.2.any (fun p => psearch p.items f)) = true
    · rw [if_pos hc] at hval; exact ((Option.some.injEq _ _).mp hval).symm
    · rw [if_neg hc] at hval; cases hval
  rw [this]
  exact List.mem_map.mpr ⟨rp, hrp, rfl⟩

theorem regionsPre_mem {f : List Char} {r : String}
    (h : r ∈ regionsPre f) : r ∈ regionKeys := by
  have he : regionsPre f =
      if (regionsFromParts f).isEmpty then regionsScan f
      else regionsFromParts f := rfl
  rw [he] at h
  split at h
  · exact regionsScan_mem h
  · exact regionsFromParts_mem h

/-- Every region returned by `detect_regions` is a table key or `USA`. -/
theorem detect_regions_mem {f : List Char} {r : String}
    (h : r ∈ detect_regions f) : r ∈ regionKeys ∨ r = "USA" := by
  have he : detect_regions f =
      if regionsTrans f (regionsPre f) = [] ∨
          regionsTrans f (regionsPre f) = ["Unknown"] then ["USA"]
      else regionsTrans f (regionsPre f) := rfl
  rw [he] at h
  split at h
  · exact Or.inr (by simpa using h)
  · have htrans : ∀ x ∈ regionsTrans f (regionsPre f),
        x ∈ regionKeys ∨ x = "USA" := by
      intro x hx
      unfold regionsTrans at hx
      split at hx
      · split at hx
        · simp only [] at hx
          split at hx
          · exact Or.inl (regionsPre_mem (List.mem_of_mem_filter hx))
          · rcases List.mem_append.mp hx with h2 | h2
            · exact Or.inl (regionsPre_mem (List.mem_of_mem_filter h2))
            · exact Or.inr (by simpa using h2)
        · split at hx
          · exact Or.inr (by simpa using hx)
          · exact Or.inl (regionsPre_mem hx)
      · exact Or.inl (regionsPre_mem hx)
    exact htrans r h

/-- `detect_regions` never returns the empty list. -/
theorem detect_regions_ne_nil (f : List Char) : detect_regions f ≠ [] := by
  have he : detect_regions f =
      if regionsTrans f (regionsPre f) = [] ∨
          regionsTrans f (regionsPre f) = ["Unknown"] then ["USA"]
      else regionsTrans f (regionsPre f) := rfl
  rw [he]
  split
  · simp
  · rename_i hcond
    intro hnil
    exact hcond (Or.inl hnil)

/-- When neither detection stage finds a region, `detect_regions`
returns exactly `["USA"]`. -/
theorem detect_regions_default (f : List Char) (h : regionsPre f = []) :
    detect_regions f = ["USA"] := by
  have he : detect_regions f =
      if regionsTrans f (regionsPre f) = [] ∨
          regionsTrans f (regionsPre f) = ["Unknown"] then ["USA"]
      else regionsTrans f (regionsPre f) := rfl
  rw [he, h]
  unfold regionsTrans
  split
  · rw [if_neg (by simp), if_pos (Or.inl rfl)]
    simp
  · simp

/-- `detect_regions` never returns `"Unknown"`. -/
theorem detect_regions_no_unknown (f : List Char) :
    "Unknown" ∉ detect_regions f := by
  intro h
  rcases detect_regions_mem h with h2 | h2
  · revert h2
    decide
  · exact absurd h2 (by decide)

/-- With a translation marker, the returned region list never contains
Japan; every other region detected before the substitution is retained;
and if Japan was detected before the substitution, USA is in the
result. -/
theorem detect_regions_translation (f : List Char)
    (htr : has_translation f = true) :
    "Japan" ∉ detect_regions f ∧
      (∀ r ∈ regionsPre f, r ≠ "Japan" → r ∈ detect_regions f) ∧
      ("Japan" ∈ regionsPre f → "USA" ∈ detect_regions f) := by
  have he : detect_regions f =
      if regionsTrans f (regionsPre f) = [] ∨
          regionsTrans f (regionsPre f) = ["Unknown"] then ["USA"]
      else regionsTrans f (regionsPre f) := rfl
  have hnoJapan : "Japan" ∉ regionsTrans f (regionsPre f) := by
    unfold regionsTrans
    rw [if_pos htr]
    split
    · simp only []
      split
      · intro hmem
        have := List.of_mem_filter hmem
        simp at this
      · intro hmem
        rcases List.mem_append.mp hmem with h2 | h2
        · have := List.of_mem_filter h2
          simp at this
        · simp at h2
    · split
      · simp
      · rename_i hnj _
        exact hnj
  have husa : "Japan" ∈ regionsPre f → "USA" ∈ regionsTrans f (regionsPre f) := by
    intro hj
    unfold regionsTrans
    rw [if_pos htr, if_pos hj]
    simp only []
    split
    · assumption
    · exact List.mem_append.mpr (Or.inr (by simp))
  have hretain : ∀ r ∈ regionsPre f, r ≠ "Japan" → r ∈ detect_regions f := by
    intro r hr hrne
    have hrk : r ∈ regionKeys := regionsPre_mem hr
    have hrunk : r ≠ "Unknown" := by
      intro hu
      rw [hu] at hrk
      revert hrk
      decide
    have hrt : r ∈ regionsTrans f (regionsPre f) := by
      unfold regionsTrans
      rw [if_pos htr]
      split
      · simp only []
        have hfl : r ∈ (regionsPre f).filter (fun x => x ≠ "Japan") := by
          rw [List.mem_filter]
          exact ⟨hr, by simp [hrne]⟩
        split
        · exact hfl
        · exact List.mem_append.mpr (Or.inl hfl)
      · split
        · rename_i hcond
          rcases hcond with h0 | h0
          · rw [h0] at hr
            cases hr
          · rw [h0] at hr
            simp only [List.mem_singleton] at hr
            exact absurd hr hrunk
        · exact hr
    rw [he]
    split
    · rename_i hcond
      rcases hcond with h0 | h0
      · rw [h0] at hrt
        cases hrt
      · rw [h0] at hrt
        simp only [List.mem_singleton] at hrt
        exact absurd hrt hrunk
    · exact hrt
  refine ⟨?_, hretain, ?_⟩
  · rw [he]
    split
    · simp
    · exact hnoJapan
  · intro hj
    rw [he]
    split
    · simp
    · exact husa hj

/-! ### Filter characterisations of the bulk move operations -/

/-- `move_files_by_criteria` returns exactly the selected items whose move
succeeded, in order: a per-item move failure only drops that item. -/
theorem move_files_by_criteria_filter (rom_files : List (List Char))
    (ct cv : String) (moveOk : List Char → Bool) :
    move_files_by_criteria rom_files ct cv moveOk =
      rom_files.filter (fun f => shouldMoveCrit ct cv f && moveOk f) := by
  induction rom_files with
  | nil => rfl
  | cons f fs ih =>
    simp only [move_files_by_criteria, List.filter_cons]
    by_cases h1 : shouldMoveCrit ct cv f = true
    · by_cases h2 : moveOk f = true
      · simp [h1, h2, ih]
      · simp [h1, eq_false_of_ne_true h2, ih]
    · simp [eq_false_of_ne_true h1, ih]

/-- `move_files_keep_main_regions` returns exactly the items with no
detected region in the keep set whose move succeeded. -/
theorem move_files_keep_main_regions_filter (rom_files : List (List Char))
    (moveOk : List Char → Bool) :
    move_files_keep_main_regions rom_files moveOk =
      rom_files.filter
        (fun f => !((detect_regions f).any (fun r => r ∈ keep_regions)) &&
          moveOk f) := by
  induction rom_files with
  | nil => rfl
  | cons f fs ih =>
    simp only [move_files_keep_main_regions, List.filter_cons]
    by_cases h1 : ((detect_regions f).any (fun r => r ∈ keep_regions)) = true
    · simp [h1, ih]
    · by_cases h2 : moveOk f = true
      · simp [eq_false_of_ne_true h1, h2, ih]
      · simp [eq_false_of_ne_true h1, eq_false_of_ne_true h2, ih]

/-! ### Remaining helper definitions and lemmas for the claims -/

/-- No version pattern matches anywhere in the filename (all twelve
matchers of `detect_version` fail). -/
def noVersionMarker (f : List Char) : Bool :=
  (vsearch (stdAt '(' ')') f).isNone && (vsearch (stdAt '[' ']') f).isNone &&
  (vsearch (verAt '(' ')' "ver".data true) f).isNone &&
  (vsearch (verAt '[' ']' "ver".data true) f).isNone &&
  (vsearch (verAt '(' ')' "version".data false) f).isNone &&
  (vsearch (verAt '[' ']' "version".data false) f).isNone &&
  (vsearch (revAt '(' ')') f).isNone && (vsearch (revAt '[' ']') f).isNone &&
  (vsearch (revisionAt '(' ')') f).isNone &&
  (vsearch (revisionAt '[' ']') f).isNone &&
  (vsearch (abAt '(' ')') f).isNone && (vsearch (abAt '[' ']') f).isNone

/-- A filename with no version marker gets the default tuple. -/
theorem detect_version_default (g : List Char) (h : noVersionMarker g = true) :
    detect_version g = (2, 1, 0, 0) := by
  unfold noVersionMarker at h
  simp only [Bool.and_eq_true, Option.isNone_iff_eq_none] at h
  obtain ⟨⟨⟨⟨⟨⟨⟨⟨⟨⟨⟨h1, h2⟩, h3⟩, h4⟩, h5⟩, h6⟩, h7⟩, h8⟩, h9⟩, h10⟩, h11⟩, h12⟩ := h
  simp only [detect_version, h1, h2, h3, h4, h5, h6, h7, h8, h9, h10, h11, h12]

/-- The `unknown_region` criterion never selects a file. -/
theorem shouldMoveCrit_unknown (cv : String) (f : List Char) :
    shouldMoveCrit "unknown_region" cv f = false := by
  unfold shouldMoveCrit
  rw [if_neg (by decide), if_neg (by decide), if_pos rfl]
  simp only [decide_eq_false_iff_not]
  exact detect_regions_no_unknown f


theorem get_primary_region_cons (priority : List String) (f : List Char)
    (r : String) (rs : List String) (hreg : detect_regions f = r :: rs) :
    get_primary_region priority f =
      match priority.find? (fun p => p ∈ r :: rs) with
      | some p => p
      | none => r := by
  unfold get_primary_region
  rw [hreg]

/-- Under the default priority order, "no detected region is a keep
region" coincides with "the primary region is outside the keep set"
(the two differ under priority orders naming regions outside the keep
set). -/
theorem keep_vs_primary_default (f : List Char) :
    ((detect_regions f).any (fun r => r ∈ keep_regions)) = false ↔
      get_primary_region ["USA", "World", "Europe", "Japan"] f ∉ keep_regions := by
  have hmemiff : ∀ y : String,
      y ∈ keep_regions ↔ y ∈ ["USA", "World", "Europe", "Japan"] := by
    intro y
    simp [keep_regions]
    tauto
  constructor
  · intro hdisj
    have hnot : ∀ x ∈ detect_regions f, x ∉ keep_regions := by
      intro x hx hk
      have := List.any_eq_false.mp hdisj x hx
      simp [hk] at this
    cases hreg : detect_regions f with
    | nil => exact absurd hreg (detect_regions_ne_nil f)
    | cons r rs =>
      have hfind : (["USA", "World", "Europe", "Japan"] : List String).find?
          (fun p => p ∈ r :: rs) = none := by
        rw [List.find?_eq_none]
        intro p hp
        have hpk : p ∈ keep_regions := (hmemiff p).mpr hp
        intro hpr
        have hmem : p ∈ r :: rs := by simpa using hpr
        rw [← hreg] at hmem
        exact hnot p hmem hpk
      rw [get_primary_region_cons _ f r rs hreg, hfind]
      apply hnot
      rw [hreg]
      simp
  · intro hprim
    rw [List.any_eq_false]
    intro x hx
    simp only [Bool.not_eq_true, decide_eq_false_iff_not]
    intro hk
    have hxp : x ∈ (["USA", "World", "Europe", "Japan"] : List String) :=
      (hmemiff x).mp hk
    cases hreg : detect_regions f with
    | nil => exact absurd hreg (detect_regions_ne_nil f)
    | cons r rs =>
      rw [hreg] at hx
      cases hfind : (["USA", "World", "Europe", "Japan"] : List String).find?
          (fun p => p ∈ r :: rs) with
      | none =>
        have := List.find?_eq_none.mp hfind x hxp
        simp [hx] at this
      | some p =>
        have hp1 : p ∈ (["USA", "World", "Europe", "Japan"] : List String) :=
          List.mem_of_find?_eq_some hfind
        apply hprim
        rw [get_primary_region_cons _ f r rs hreg, hfind]
        exact (hmemiff p).mpr hp1

/-! ### Claim theorems -/

set_option maxRecDepth 10000 in
/-- C1 (counterexample): the filename `"Game (beta 2) (v1.0).rom"` carries
both an alpha/beta-with-number marker and a standard numeric marker, yet
`detect_version` returns the tuple `(2, 1, 0, 0)` built from the numeric
marker — release stage 2, not the stage 0/1 the claim requires: the
standard numeric family is tried before alpha/beta, not after. -/
theorem C1_counterexample :
    vsearch (abAt '(' ')') "Game (beta 2) (v1.0).rom".data ≠ none ∧
    vsearch (stdAt '(' ')') "Game (beta 2) (v1.0).rom".data ≠ none ∧
    detect_version "Game (beta 2) (v1.0).rom".data = (2, 1, 0, 0) := by
  refine ⟨by decide, by decide, by decide⟩

/-- C1 (amended): `detect_version` tries the version-pattern families in
the order standard numeric first, then revision, then alpha/beta, and
returns on the first match: whenever the parenthesised standard numeric
pattern matches — even though an alpha/beta-with-number marker is also
present — the returned tuple is the one constructed from the numeric
match, with release stage 2. -/
theorem C1_std_numeric_first (f : List Char) (n ma mi : Nat) (pa : Option Nat)
    (hab : vsearch (abAt '(' ')') f ≠ none)
    (hstd : vsearch (stdAt '(' ')') f = some (n, ma, mi, pa)) :
    detect_version f = (2, ma, mi, pa.getD 0) := by
  simp only [detect_version, hstd]

set_option maxRecDepth 10000 in
/-- C1 (witness): the amended theorem applied to the counterexample
filename. -/
theorem C1_std_numeric_first_witness :
    vsearch (abAt '(' ')') "Game (beta 2) (v1.0).rom".data ≠ none ∧
    vsearch (stdAt '(' ')') "Game (beta 2) (v1.0).rom".data =
      some (6, 1, 0, none) ∧
    detect_version "Game (beta 2) (v1.0).rom".data = (2, 1, 0, 0) :=
  ⟨by decide, by decide,
    C1_std_numeric_first "Game (beta 2) (v1.0).rom".data 6 1 0 none
      (by decide) (by decide)⟩

set_option maxRecDepth 10000 in
/-- C2 (counterexample): with the configured priority order `["Asia"]`
(a legal configuration: `Asia` is a valid region name), the file
`"Game (Asia, USA).zip"` has primary region `Asia`, which is outside
{USA, Europe, Japan, World}, yet the keep-main-regions operation does not
move it (its region set also contains USA), even though every move
succeeds: selection tests the whole detected region set, not the primary
region. -/
theorem C2_counterexample :
    get_primary_region ["Asia"] "Game (Asia, USA).zip".data = "Asia" ∧
    "Asia" ∉ keep_regions ∧
    move_files_keep_main_regions ["Game (Asia, USA).zip".data]
      (fun f => true) = [] := by
  refine ⟨by decide, by decide, by decide⟩

/-- C2 (amended): the keep-main-regions bulk operation moves exactly those
items none of whose detected regions lies in {USA, Europe, Japan, World}
(and whose filesystem move succeeds): an item is in the returned moved
list iff it is an input item, its detected region set is disjoint from the
keep set, and its move succeeded.  Under the default priority order —
though not under every configured one — that disjointness is equivalent to
the claimed primary-region test. -/
theorem C2_keep_main_regions (rom_files : List (List Char))
    (moveOk : List Char → Bool) (f : List Char) :
    (f ∈ move_files_keep_main_regions rom_files moveOk ↔
      f ∈ rom_files ∧
        ((detect_regions f).any (fun r => r ∈ keep_regions)) = false ∧
        moveOk f = true) ∧
    (((detect_regions f).any (fun r => r ∈ keep_regions)) = false ↔
      get_primary_region ["USA", "World", "Europe", "Japan"] f ∉
        keep_regions) := by
  refine ⟨?_, keep_vs_primary_default f⟩
  rw [move_files_keep_main_regions_filter, List.mem_filter]
  simp only [Bool.and_eq_true, Bool.not_eq_true']

set_option maxRecDepth 10000 in
/-- C3 (counterexample): the filename
`"Game (Japan, Europe) [T+Eng].zip"` contains a Japan region marker
(Japan is detected before the substitution) and a translation marker, yet
`detect_regions` returns `["Europe", "USA"]`, not the one-element set
`["USA"]`: the substitution removes Japan and adds USA but keeps the other
detected regions. -/
theorem C3_counterexample :
    has_translation "Game (Japan, Europe) [T+Eng].zip".data = true ∧
    "Japan" ∈ regionsPre "Game (Japan, Europe) [T+Eng].zip".data ∧
    detect_regions "Game (Japan, Europe) [T+Eng].zip".data =
      ["Europe", "USA"] := by
  refine ⟨by decide, by decide, by decide⟩

/-- C3 (amended): for every filename with a translation marker the region
list returned by `detect_regions` never contains Japan; every other
region detected before the substitution is retained in the result; and
whenever Japan was detected before the substitution the result contains
USA.  The result therefore need not be the one-element set `["USA"]`. -/
theorem C3_japan_translation (f : List Char)
    (htr : has_translation f = true) :
    "Japan" ∉ detect_regions f ∧
      (∀ r ∈ regionsPre f, r ≠ "Japan" → r ∈ detect_regions f) ∧
      ("Japan" ∈ regionsPre f → "USA" ∈ detect_regions f) :=
  detect_regions_translation f htr

set_option maxRecDepth 10000 in
/-- C3 (witness): the amended theorem applied concretely — a Japan-only
translated filename for the Japan-removal and USA-addition parts, and a
Japan-plus-Europe translated filename for the retention part. -/
theorem C3_japan_translation_witness :
    has_translation "Game (Japan) [T+Eng].nes".data = true ∧
    "Japan" ∈ regionsPre "Game (Japan) [T+Eng].nes".data ∧
    "Japan" ∉ detect_regions "Game (Japan) [T+Eng].nes".data ∧
    "USA" ∈ detect_regions "Game (Japan) [T+Eng].nes".data ∧
    "Europe" ∈ regionsPre "Game (Japan, Europe) [T+Eng].zip".data ∧
    "Europe" ∈ detect_regions "Game (Japan, Europe) [T+Eng].zip".data :=
  ⟨by decide, by decide,
    (C3_japan_translation "Game (Japan) [T+Eng].nes".data (by decide)).1,
    (C3_japan_translation "Game (Japan) [T+Eng].nes".data (by decide)).2.2
      (by decide),
    by decide,
    (C3_japan_translation "Game (Japan, Europe) [T+Eng].zip".data
      (by decide)).2.1 "Europe" (by decide) (by decide)⟩

set_option maxRecDepth 10000 in
/-- C4 (counterexample): `get_base_filename` is not idempotent on every
filename: on `"((Beta)USA).nes"` the first pass strips the nested
`(Beta)`, exposing a fresh `(USA)` region tag that only the second run
removes, so re-running the function changes its own output. -/
theorem C4_counterexample :
    get_base_filename (get_base_filename "((Beta)USA).nes".data) ≠
      get_base_filename "((Beta)USA).nes".data := by
  decide

/-- C4 (amended): `get_base_filename` is idempotent on every filename
whose normalized output contains no parenthesis, bracket or dot (so that
stripping exposed no fresh tag and no fresh extension): re-running the
region/special/version tag-stripping passes on such a result is a
no-op. -/
theorem C4_idempotent_on_clean (x : List Char)
    (h : cleanStr (get_base_filename x) = true) :
    get_base_filename (get_base_filename x) = get_base_filename x :=
  get_base_filename_idem_of_clean x h

set_option maxRecDepth 10000 in
/-- C4 (witness): the amended theorem applied to `"Game (USA).zip"`,
whose base identity `"Game"` is clean. -/
theorem C4_idempotent_on_clean_witness :
    cleanStr (get_base_filename "Game (USA).zip".data) = true ∧
    get_base_filename (get_base_filename "Game (USA).zip".data) =
      get_base_filename "Game (USA).zip".data :=
  ⟨by decide, C4_idempotent_on_clean "Game (USA).zip".data (by decide)⟩

set_option maxRecDepth 10000 in
/-- C5 (counterexample): the universal part of the claim fails in two
ways.  `"Game USA.zip"` and `"Game (USA).zip"` differ only in the form of
the USA region decoration (both classify to region set `["USA"]`, no
special tags, default version), yet their base identities differ:
bare-word region tags are detected but never stripped.  And even fully
delimiter-matched decoration can break equality: `"B [b(USA)6].nes"` and
`"B [b(Europe) (Beta)6].nes"` differ only in region/special decoration of
the claim's own shapes, yet normalize to `"B"` versus `"B [b 6]"` —
removing `(USA)` glues `b` and `6` into `[b6]`, which the Beta pattern
`\[b\d*\]` then strips, while the Europe/Beta side leaves `[b 6]`
behind. -/
theorem C5_counterexample :
    detect_regions "Game USA.zip".data = ["USA"] ∧
    detect_regions "Game (USA).zip".data = ["USA"] ∧
    detect_special_versions "Game USA.zip".data = [] ∧
    detect_special_versions "Game (USA).zip".data = [] ∧
    detect_version "Game USA.zip".data = (2, 1, 0, 0) ∧
    detect_version "Game (USA).zip".data = (2, 1, 0, 0) ∧
    get_base_filename "Game USA.zip".data ≠
      get_base_filename "Game (USA).zip".data ∧
    get_base_filename "B [b(USA)6].nes".data = "B".data ∧
    get_base_filename "B [b(Europe) (Beta)6].nes".data = "B [b 6]".data ∧
    get_base_filename "B [b(USA)6].nes".data ≠
      get_base_filename "B [b(Europe) (Beta)6].nes".data := by
  refine ⟨by decide, by decide, by decide, by decide, by decide, by decide,
    by decide, by decide, by decide, by decide⟩

set_option maxRecDepth 10000 in
/-- C5 (amended): the claim's concrete instance holds —
`baseIdentity("Game (USA).zip") = baseIdentity("Game (Europe) (Beta).zip")`
(both normalize to `"Game"`).  The claim's universal part is refuted by
the counterexample: decoration-only differences do not in general
preserve the base identity, neither for bare-word region tags nor even
for fully delimiter-matched tags whose removal glues surrounding text
into a new tag. -/
theorem C5_instance :
    get_base_filename "Game (USA).zip".data =
      get_base_filename "Game (Europe) (Beta).zip".data := by
  decide

/-- C6: `detect_regions` never returns an empty list, and when neither
detection stage finds a region the result is exactly `["USA"]`. -/
theorem C6_nonempty_default (f : List Char) :
    detect_regions f ≠ [] ∧
      (regionsPre f = [] → detect_regions f = ["USA"]) :=
  ⟨detect_regions_ne_nil f, detect_regions_default f⟩

set_option maxRecDepth 10000 in
/-- C6 (witness): a filename matching no region pattern defaults to
`["USA"]`. -/
theorem C6_nonempty_default_witness :
    regionsPre "Plain Game".data = [] ∧
    detect_regions "Plain Game".data = ["USA"] :=
  ⟨by decide, (C6_nonempty_default "Plain Game".data).2 (by decide)⟩

/-- C7: exclusion patterns take precedence in both classifiers: whenever
any exclusion pattern of the category matches the lower-cased stem the
classifier returns false, and it returns true exactly when no exclusion
matches and some positive pattern matches. -/
theorem C7_exclusion_precedence (f : List Char) :
    (casino_exclusion_patterns.any
        (fun p => psearch p (toLowerL (pyStem f))) = true →
      is_casino_game f = false) ∧
    (is_casino_game f = true ↔
      casino_exclusion_patterns.any
        (fun p => psearch p (toLowerL (pyStem f))) = false ∧
      casino_game_patterns.any
        (fun p => psearch p (toLowerL (pyStem f))) = true) ∧
    (adult_exclusion_patterns.any
        (fun p => psearch p (toLowerL (pyStem f))) = true →
      is_adult_game f = false) ∧
    (is_adult_game f = true ↔
      adult_exclusion_patterns.any
        (fun p => psearch p (toLowerL (pyStem f))) = false ∧
      adult_game_patterns.any
        (fun p => psearch p (toLowerL (pyStem f))) = true) := by
  unfold is_casino_game is_adult_game
  refine ⟨?_, ?_, ?_, ?_⟩
  · intro h; simp [h]
  · by_cases h : casino_exclusion_patterns.any
        (fun p => psearch p (toLowerL (pyStem f))) = true
    · simp [h]
    · simp [eq_false_of_ne_true h]
  · intro h; simp [h]
  · by_cases h : adult_exclusion_patterns.any
        (fun p => psearch p (toLowerL (pyStem f))) = true
    · simp [h]
    · simp [eq_false_of_ne_true h]

set_option maxRecDepth 10000 in
/-- C7 (witness): `"Pokemon Poker.gb"` matches both a casino positive
pattern and a casino exclusion pattern, and is classified as not a casino
game. -/
theorem C7_exclusion_precedence_witness :
    casino_exclusion_patterns.any
      (fun p => psearch p (toLowerL (pyStem "Pokemon Poker.gb".data))) = true ∧
    casino_game_patterns.any
      (fun p => psearch p (toLowerL (pyStem "Pokemon Poker.gb".data))) = true ∧
    is_casino_game "Pokemon Poker.gb".data = false :=
  ⟨by decide, by decide,
    (C7_exclusion_precedence "Pokemon Poker.gb".data).1 (by decide)⟩

/-- C8: a per-item move failure does not abort the batch: for every input
list and every pattern of per-item move outcomes, the moved list is
exactly the selected items whose move succeeded, in input order — failed
items are absent, every remaining item is still attempted. -/
theorem C8_partial_failure (rom_files : List (List Char)) (ct cv : String)
    (moveOk : List Char → Bool) :
    move_files_by_criteria rom_files ct cv moveOk =
      rom_files.filter (fun f => shouldMoveCrit ct cv f && moveOk f) :=
  move_files_by_criteria_filter rom_files ct cv moveOk

/-- C9: `detect_regions` never returns `"Unknown"`, so the
`unknown_region` criterion selects nothing and
`move_files_by_criteria ... 'unknown_region' ...` always returns the
empty moved list. -/
theorem C9_unknown_region_empty (f : List Char) (files : List (List Char))
    (cv : String) (mv : List Char → Bool) :
    "Unknown" ∉ detect_regions f ∧
      move_files_by_criteria files "unknown_region" cv mv = [] := by
  refine ⟨detect_regions_no_unknown f, ?_⟩
  rw [move_files_by_criteria_filter]
  apply List.filter_eq_nil_iff.mpr
  intro g _
  simp [shouldMoveCrit_unknown cv g]

/-- C10: for a filename whose only version marker is a parenthesised
revision form matched with number `n`, `detect_version` returns
`(2, 0, 0, n)`; this compares strictly below the default `(2, 1, 0, 0)` of
a filename with no version marker, so `get_best_version_rom`, given the
revision-tagged copy and an unversioned copy (neither a save state),
selects the unversioned copy. -/
theorem C10_revision_below_default (f g : List Char) (len n : Nat)
    (h1 : vsearch (stdAt '(' ')') f = none)
    (h2 : vsearch (stdAt '[' ']') f = none)
    (h3 : vsearch (verAt '(' ')' "ver".data true) f = none)
    (h4 : vsearch (verAt '[' ']' "ver".data true) f = none)
    (h5 : vsearch (verAt '(' ')' "version".data false) f = none)
    (h6 : vsearch (verAt '[' ']' "version".data false) f = none)
    (h7 : vsearch (revAt '(' ')') f = some (len, n))
    (hg : noVersionMarker g = true)
    (hf : is_save_state f = false) (hgs : is_save_state g = false) :
    detect_version f = (2, 0, 0, n) ∧
    vLt (detect_version f) (detect_version g) = true ∧
    get_best_version_rom [f, g] = some g := by
  have dvf : detect_version f = (2, 0, 0, n) := by
    simp only [detect_version, h1, h2, h3, h4, h5, h6, h7]
  have dvg : detect_version g = (2, 1, 0, 0) := detect_version_default g hg
  have hlt : vLt (detect_version f) (detect_version g) = true := by
    rw [dvf, dvg]
    rfl
  refine ⟨dvf, hlt, ?_⟩
  have hkey : keyLt (vkey f) (vkey g) = true := by
    unfold keyLt vkey
    rw [dvf, dvg]
    simp only [Bool.or_eq_true]
    left
    rfl
  unfold get_best_version_rom
  simp only [List.filter_cons, hf, hgs, Bool.not_false, if_true,
    List.filter_nil]
  simp only [List.foldl_cons, List.foldl_nil, hkey, if_true]

set_option maxRecDepth 10000 in
/-- C10 (witness): `"Game (Rev 1).nes"` versus `"Game.nes"`. -/
theorem C10_revision_below_default_witness :
    detect_version "Game (Rev 1).nes".data = (2, 0, 0, 1) ∧
    vLt (detect_version "Game (Rev 1).nes".data)
      (detect_version "Game.nes".data) = true ∧
    get_best_version_rom ["Game (Rev 1).nes".data, "Game.nes".data] =
      some "Game.nes".data :=
  C10_revision_below_default "Game (Rev 1).nes".data "Game.nes".data 7 1
    (by decide) (by decide) (by decide) (by decide) (by decide) (by decide)
    (by decide) (by decide) (by decide) (by decide)
